import Mathlib

/-!
Verification of the steampipe-plugin-okta list/get/hydrate engine claims.

The definitions below are a shallow embedding of the Go sources:
  src/unnamed/part_001                       (table okta_factor)
  src/okta/table_okta_app_assigned_user.go
  src/okta/table_okta_password_policy.go
  src/okta/table_okta_signon_policy.go
Remote calls are modelled by passing the server's answers in as data
(`PagedResponse`), and each list function records an event trace: the
connection acquisition, every page request it issues, and every row it
streams.  Row-budget semantics of the plugin SDK (StreamListItem /
RowsRemaining) are modelled from the spec, sections 4.3 and 4.5.
-/

/-! ## String containment (strings.Contains) -/

/-- Does `pat` occur at the head of `l`? Mirrors the prefix test underlying
Go `strings.Contains`. -/
def strStarts : List Char → List Char → Bool
  | [], _ => true
  | _ :: _, [] => false
  | a :: as, b :: bs => a == b && strStarts as bs

/-- Does `pat` occur anywhere in `l`? -/
def hasSubAux (pat : List Char) : List Char → Bool
  | [] => strStarts pat []
  | c :: cs => strStarts pat (c :: cs) || hasSubAux pat cs

/-- Model of Go `strings.Contains s pat`. -/
def strContainsSub (s pat : String) : Bool :=
  hasSubAux pat.toList s.toList

/-! ## Core data for the engine model -/

/-- An error returned by the remote API or the transport, carrying its
message (Go `err.Error()`). -/
structure ApiError where
  message : String
deriving DecidableEq

/-- The remote server's answers for one paginated list call: the result of
the initial `Execute()` and the results of the successive `resp.Next(...)`
calls.  `HasNextPage()` is true exactly while continuation answers remain. -/
structure PagedResponse (α : Type) where
  first : Except ApiError (List α)
  rest : List (Except ApiError (List α))

/-- A caller-supplied equals-qualifier value: an exact-match string or a
set-membership list (proto Qual value of `d.EqualsQuals`). -/
inductive QualValue where
  | str (s : String)
  | list (l : List String)
deriving DecidableEq

/-- Model of `d.EqualsQualString(key)`: the string value of the qualifier,
or the empty string when the qualifier is absent or holds a list. -/
def dEqualsQualString : Option QualValue → String
  | some (QualValue.str s) => s
  | _ => ""

/-- Modelled from the spec: the repository's `getListValues` helper (declared
outside the provided sources) reads the values of a list-valued qualifier;
absent or string-valued qualifiers give the empty list. -/
def dGetListValues : Option QualValue → List String
  | some (QualValue.list l) => l
  | _ => []

/-- Modelled from the spec: RowSink (section 4.5) together with the SDK's
`StreamListItem`.  `tryConsume` decrements the remaining budget and only on
success is the row streamed; an exhausted finite budget discards the row.
`none` is the unbounded budget and always streams.  `mk` wraps the row as a
trace event. -/
def streamItem {ρ ε : Type} (mk : ρ → ε) (b : Option Nat) (r : ρ) :
    List ε × Option Nat :=
  match b with
  | none => ([mk r], none)
  | some 0 => ([], some 0)
  | some (n + 1) => ([mk r], some n)

/-- Modelled from the spec: RowBudget (section 4.3) and the SDK's
`RowsRemaining`: it is zero exactly when a finite budget is exhausted; the
unbounded budget never reports zero. -/
def rowsRemainingZero (b : Option Nat) : Bool :=
  match b with
  | none => false
  | some n => n == 0

/-- What one invocation of a list function did: its event trace and the
error it returned (`none` models the Go return `(nil, nil)`). -/
structure Outcome (ε : Type) where
  trace : List ε
  result : Option ApiError
deriving DecidableEq

/-! ## okta_factor (src/unnamed/part_001) -/

/-- The parent row handed to `listOktaFactors` (`h.Item.(*okta.User)`),
with its `Id` and `Profile.GetLogin()` already dereferenced. -/
structure OktaUser where
  id : String
  login : String
deriving DecidableEq

/-- The common `okta.UserFactor` fields embedded in every factor variant;
only the identity and type are carried, the rest is schema data. -/
structure UserFactor where
  id : String
  factorType : String
deriving DecidableEq

/-- The repository's `OktaFactor`: the embedded `UserFactor` plus the
variant's own `Profile` (an opaque payload here). -/
structure OktaFactor where
  userFactor : UserFactor
  profile : Option String
deriving DecidableEq

/-- The dynamic type of `factor.GetActualInstance()`: the variants the
source's `getFactorDetails` switch enumerates, plus `unknown` for an
instance of any type outside that enumeration. -/
inductive FactorInstance where
  | call (f : UserFactor) (profile : Option String)
  | email (f : UserFactor) (profile : Option String)
  | push (f : UserFactor) (profile : Option String)
  | sms (f : UserFactor) (profile : Option String)
  | securityQuestion (f : UserFactor) (profile : Option String)
  | token (f : UserFactor) (profile : Option String)
  | tokenHOTP (f : UserFactor) (profile : Option String)
  | tokenHardware (f : UserFactor) (profile : Option String)
  | tokenSoftwareTOTP (f : UserFactor) (profile : Option String)
  | u2f (f : UserFactor) (profile : Option String)
  | web (f : UserFactor) (profile : Option String)
  | webAuthn (f : UserFactor) (profile : Option String)
  | userFactorPtr (f : UserFactor) (profile : Option String)
  | userFactorVal (f : UserFactor) (profile : Option String)
  | unknown
deriving DecidableEq

/-- An element of the fetched page: `GetActualInstance()` may be nil. -/
abbrev RawFactor := Option FactorInstance

/-- Model of `getFactorDetails` (src/unnamed/part_001, lines 210-285): a
recognized variant yields its embedded `UserFactor` and `Profile`; any
other instance falls through the switch to the zero value `OktaFactor{}`. -/
def getFactorDetails : FactorInstance → OktaFactor
  | FactorInstance.call f p => ⟨f, p⟩
  | FactorInstance.email f p => ⟨f, p⟩
  | FactorInstance.push f p => ⟨f, p⟩
  | FactorInstance.sms f p => ⟨f, p⟩
  | FactorInstance.securityQuestion f p => ⟨f, p⟩
  | FactorInstance.token f p => ⟨f, p⟩
  | FactorInstance.tokenHOTP f p => ⟨f, p⟩
  | FactorInstance.tokenHardware f p => ⟨f, p⟩
  | FactorInstance.tokenSoftwareTOTP f p => ⟨f, p⟩
  | FactorInstance.u2f f p => ⟨f, p⟩
  | FactorInstance.web f p => ⟨f, p⟩
  | FactorInstance.webAuthn f p => ⟨f, p⟩
  | FactorInstance.userFactorPtr f p => ⟨f, p⟩
  | FactorInstance.userFactorVal f p => ⟨f, p⟩
  | FactorInstance.unknown => ⟨⟨"", ""⟩, none⟩

/-- Spec-side companion used to state claim C7: the payload of a variant the
source's switch recognizes, `none` for the unknown variant. -/
def factorPayload : FactorInstance → Option (UserFactor × Option String)
  | FactorInstance.call f p => some (f, p)
  | FactorInstance.email f p => some (f, p)
  | FactorInstance.push f p => some (f, p)
  | FactorInstance.sms f p => some (f, p)
  | FactorInstance.securityQuestion f p => some (f, p)
  | FactorInstance.token f p => some (f, p)
  | FactorInstance.tokenHOTP f p => some (f, p)
  | FactorInstance.tokenHardware f p => some (f, p)
  | FactorInstance.tokenSoftwareTOTP f p => some (f, p)
  | FactorInstance.u2f f p => some (f, p)
  | FactorInstance.web f p => some (f, p)
  | FactorInstance.webAuthn f p => some (f, p)
  | FactorInstance.userFactorPtr f p => some (f, p)
  | FactorInstance.userFactorVal f p => some (f, p)
  | FactorInstance.unknown => none

/-- The row type streamed by the factor table (`UserFactorInfo`). -/
structure UserFactorInfo where
  userId : String
  userName : String
  factor : OktaFactor
deriving DecidableEq

/-- Trace events of `listOktaFactors`: the `Connect` call, each page request
(page 0 is the initial `Execute()`, page i is the i-th `resp.Next`), and
each streamed row. -/
inductive FactorEv where
  | connect
  | fetchPage (i : Nat)
  | emit (r : UserFactorInfo)
deriving DecidableEq

def FactorEv.isEmit : FactorEv → Bool
  | FactorEv.emit _ => true
  | _ => false

def FactorEv.isFetch : FactorEv → Bool
  | FactorEv.fetchPage _ => true
  | _ => false

def userIdOf : Option OktaUser → String
  | some u => u.id
  | none => ""

def userNameOf : Option OktaUser → String
  | some u => u.login
  | none => ""

/-- Model of the user_id qualifier check of `listOktaFactors`
(src/unnamed/part_001, lines 87-98): returns true when the function returns
`(nil, nil)` without fetching for this parent row. -/
def factorQualPrunes (qual : Option QualValue) (userId : String) : Bool :=
  match qual with
  | none => false
  | some _ =>
    if dEqualsQualString qual != "" then
      dEqualsQualString qual != "" && dEqualsQualString qual != userId
    else if (dGetListValues qual).length > 0 then
      !((dGetListValues qual).contains userId)
    else
      false

/-- The per-page streaming loop of `listOktaFactors` (lines 115-129 and
140-154): items whose actual instance is nil are skipped, every other item
is resolved with `getFactorDetails` and streamed, and after each stream the
function returns when `RowsRemaining` is zero.  Returns the events, the
remaining budget and whether the loop returned early. -/
def streamFactorItems (uid uname : String) :
    List RawFactor → Option Nat → List FactorEv × Option Nat × Bool
  | [], b => ([], b, false)
  | none :: rest, b => streamFactorItems uid uname rest b
  | some inst :: rest, b =>
    let s := streamItem FactorEv.emit b ⟨uid, uname, getFactorDetails inst⟩
    if rowsRemainingZero s.2 then (s.1, s.2, true)
    else
      let t := streamFactorItems uid uname rest s.2
      (s.1 ++ t.1, t.2.1, t.2.2)

/-- The paging loop of `listOktaFactors` (lines 132-155): while a next page
exists, request it; a continuation error is returned as-is (no not-found
handling here); otherwise stream the page's items. -/
def factorPageLoop (uid uname : String) :
    List (Except ApiError (List RawFactor)) → Option Nat → Nat →
      List FactorEv × Option ApiError
  | [], _, _ => ([], none)
  | Except.error e :: _, _, i => ([FactorEv.fetchPage i], some e)
  | Except.ok items :: more, b, i =>
    let s := streamFactorItems uid uname items b
    if s.2.2 then (FactorEv.fetchPage i :: s.1, none)
    else
      let t := factorPageLoop uid uname more s.2.1 (i + 1)
      (FactorEv.fetchPage i :: s.1 ++ t.1, t.2)

/-- Model of `listOktaFactors` (src/unnamed/part_001, lines 71-158).
Inputs: the parent row (`h.Item`), the user_id qualifier, the outcome of
`Connect`, the server's pages and the remaining row budget. -/
def listOktaFactors (item : Option OktaUser) (qual : Option QualValue)
    (connectErr : Option ApiError) (server : PagedResponse RawFactor)
    (budget : Option Nat) : Outcome FactorEv :=
  match connectErr with
  | some e => ⟨[FactorEv.connect], some e⟩
  | none =>
    let uid := userIdOf item
    let uname := userNameOf item
    if factorQualPrunes qual uid then ⟨[FactorEv.connect], none⟩
    else if uid == "" then ⟨[FactorEv.connect], none⟩
    else
      match server.first with
      | Except.error e =>
        if strContainsSub e.message "Not found" then
          ⟨[FactorEv.connect, FactorEv.fetchPage 0], none⟩
        else ⟨[FactorEv.connect, FactorEv.fetchPage 0], some e⟩
      | Except.ok items =>
        let s := streamFactorItems uid uname items budget
        if s.2.2 then ⟨FactorEv.connect :: FactorEv.fetchPage 0 :: s.1, none⟩
        else
          let t := factorPageLoop uid uname server.rest s.2.1 1
          ⟨FactorEv.connect :: FactorEv.fetchPage 0 :: s.1 ++ t.1, t.2⟩

/-- The rows one page of raw factors produces, in page order. -/
def factorRows (uid uname : String) (items : List RawFactor) :
    List UserFactorInfo :=
  items.filterMap fun r =>
    r.map fun inst => ⟨uid, uname, getFactorDetails inst⟩

/-- The trace the paging loop produces with an unbounded budget and
error-free pages, page i first: used to state pagination order. -/
def factorPagesTrace (uid uname : String) :
    List (List RawFactor) → Nat → List FactorEv
  | [], _ => []
  | p :: ps, i =>
    FactorEv.fetchPage i :: (factorRows uid uname p).map FactorEv.emit
      ++ factorPagesTrace uid uname ps (i + 1)

/-! ## okta_app_assigned_user (src/okta/table_okta_app_assigned_user.go) -/

/-- The dynamic type of the parent application item's `GetActualInstance()`:
the variants the source's switch enumerates (each with its nillable `Id`),
plus `unknown` for any other type. -/
inductive AppInstance where
  | autoLogin (id : Option String)
  | basicAuth (id : Option String)
  | bookmark (id : Option String)
  | browserPlugin (id : Option String)
  | openIdConnect (id : Option String)
  | saml (id : Option String)
  | saml11 (id : Option String)
  | securePasswordStore (id : Option String)
  | wsFederation (id : Option String)
  | unknown
deriving DecidableEq

/-- The id extracted from one application instance (lines 82-119): the
variant's `Id` when non-nil, otherwise appId stays the empty string. -/
def appIdOfInstance : AppInstance → String
  | AppInstance.autoLogin i => i.getD ""
  | AppInstance.basicAuth i => i.getD ""
  | AppInstance.bookmark i => i.getD ""
  | AppInstance.browserPlugin i => i.getD ""
  | AppInstance.openIdConnect i => i.getD ""
  | AppInstance.saml i => i.getD ""
  | AppInstance.saml11 i => i.getD ""
  | AppInstance.securePasswordStore i => i.getD ""
  | AppInstance.wsFederation i => i.getD ""
  | AppInstance.unknown => ""

/-- The parent row handed to `listApplicationAssignedUsers`: the
`ListApplications200Response` union (whose actual instance may be nil), or
an item of any other type. -/
inductive AppParentItem where
  | listAppsInner (inner : Option AppInstance)
  | other
deriving DecidableEq

/-- Model of the appId extraction switch (lines 77-121). -/
def extractAppId : AppParentItem → String
  | AppParentItem.listAppsInner none => ""
  | AppParentItem.listAppsInner (some a) => appIdOfInstance a
  | AppParentItem.other => ""

/-- An application user as the server returns it; only the fields the
qualifiers of this table mention are carried. -/
structure AppUser where
  id : String
  userName : String
  firstName : String
  email : String
deriving DecidableEq

/-- The row type streamed by the table (`AppUserInfo`). -/
structure AppUserInfo where
  appId : String
  user : AppUser
deriving DecidableEq

/-- Trace events of `listApplicationAssignedUsers`: the `Connect` call, the
initial request with the page limit and the server-side query parameter q
it sends (q empty means no `Q` parameter was set), each continuation
request, and each streamed row. -/
inductive AppEv where
  | connect
  | fetchFirst (appId : String) (pageLimit : Int) (q : String)
  | fetchNext (i : Nat)
  | emit (r : AppUserInfo)
deriving DecidableEq

def AppEv.isEmit : AppEv → Bool
  | AppEv.emit _ => true
  | _ => false

def AppEv.isFetch : AppEv → Bool
  | AppEv.fetchFirst _ _ _ => true
  | AppEv.fetchNext _ => true
  | _ => false

/-- Model of the page-limit clamp (lines 133-153): `maxLimit` starts at 500
and is lowered to the caller's limit when that is smaller. -/
def appMaxLimit (limit : Option Int) : Int :=
  match limit with
  | none => 500
  | some l => if l < 500 then l else 500

/-- Model of the q selection (lines 137-144): the first non-empty of the
user_name, first_name and email qualifier strings. -/
def chooseQ (userNameQ firstNameQ emailQ : String) : String :=
  if userNameQ != "" then userNameQ
  else if firstNameQ != "" then firstNameQ
  else if emailQ != "" then emailQ
  else ""

/-- The per-page streaming loop (lines 166-173 and 183-190): every user of
the page is streamed (there is no client-side qualifier re-check), and
after each stream the function returns when `RowsRemaining` is zero. -/
def streamAppUsers (appId : String) :
    List AppUser → Option Nat → List AppEv × Option Nat × Bool
  | [], b => ([], b, false)
  | u :: rest, b =>
    let s := streamItem AppEv.emit b ⟨appId, u⟩
    if rowsRemainingZero s.2 then (s.1, s.2, true)
    else
      let t := streamAppUsers appId rest s.2
      (s.1 ++ t.1, t.2.1, t.2.2)

/-- The paging loop (lines 176-191): a continuation error is returned
as-is. -/
def appPageLoop (appId : String) :
    List (Except ApiError (List AppUser)) → Option Nat → Nat →
      List AppEv × Option ApiError
  | [], _, _ => ([], none)
  | Except.error e :: _, _, i => ([AppEv.fetchNext i], some e)
  | Except.ok us :: more, b, i =>
    let s := streamAppUsers appId us b
    if s.2.2 then (AppEv.fetchNext i :: s.1, none)
    else
      let t := appPageLoop appId more s.2.1 (i + 1)
      (AppEv.fetchNext i :: s.1 ++ t.1, t.2)

/-- Model of `listApplicationAssignedUsers` (lines 72-194).  The appId is
extracted and checked before `Connect`; the first fetch carries the clamped
page limit and q; a first-page error is returned as-is (no not-found
handling in this function). -/
def listApplicationAssignedUsers (item : AppParentItem)
    (userNameQual firstNameQual emailQual : Option QualValue)
    (connectErr : Option ApiError) (limit : Option Int)
    (server : PagedResponse AppUser) (budget : Option Nat) : Outcome AppEv :=
  let appId := extractAppId item
  if appId == "" then ⟨[], none⟩
  else
    match connectErr with
    | some e => ⟨[AppEv.connect], some e⟩
    | none =>
      let q := chooseQ (dEqualsQualString userNameQual)
        (dEqualsQualString firstNameQual) (dEqualsQualString emailQual)
      let lim := appMaxLimit limit
      match server.first with
      | Except.error e => ⟨[AppEv.connect, AppEv.fetchFirst appId lim q], some e⟩
      | Except.ok us =>
        let s := streamAppUsers appId us budget
        if s.2.2 then
          ⟨AppEv.connect :: AppEv.fetchFirst appId lim q :: s.1, none⟩
        else
          let t := appPageLoop appId server.rest s.2.1 1
          ⟨AppEv.connect :: AppEv.fetchFirst appId lim q :: s.1 ++ t.1, t.2⟩

/-- The rows one page of app users produces, in page order. -/
def appRows (appId : String) (us : List AppUser) : List AppUserInfo :=
  us.map fun u => ⟨appId, u⟩

/-- The trace of the continuation pages with an unbounded budget and
error-free pages. -/
def appPagesTrace (appId : String) :
    List (List AppUser) → Nat → List AppEv
  | [], _ => []
  | p :: ps, i =>
    AppEv.fetchNext i :: (appRows appId p).map AppEv.emit
      ++ appPagesTrace appId ps (i + 1)

/-- The page limits carried by the requests of a trace (only the initial
request carries one). -/
def sentPageLimits (t : List AppEv) : List Int :=
  t.filterMap fun e =>
    match e with
    | AppEv.fetchFirst _ l _ => some l
    | _ => none

/-- The rows emitted along a trace, in order. -/
def appEmits (t : List AppEv) : List AppUserInfo :=
  t.filterMap fun e =>
    match e with
    | AppEv.emit r => some r
    | _ => none

/-! ## Policy tables (src/okta/table_okta_password_policy.go,
src/okta/table_okta_signon_policy.go) -/

/-- The fields of one concrete policy variant of the `ListPolicies200Response`
union, nillable exactly as in the SDK structs the source dereferences. -/
structure RawPolicy where
  id : Option String
  name : String
  description : Option String
  status : Option String
  priority : Option Int
  system : Option Bool
  ptype : String
  created : Option Nat
  lastUpdated : Option Nat
  settings : Option String
deriving DecidableEq

/-- The dynamic type of `policyResp.GetActualInstance()`: the variants the
sources dispatch on, plus `unknown` for any other type. -/
inductive PolicyInstance where
  | passwordPolicy (p : RawPolicy)
  | authenticatorEnrollmentPolicy (p : RawPolicy)
  | accessPolicy (p : RawPolicy)
  | idpDiscoveryPolicy (p : RawPolicy)
  | oktaSignOnPolicy (p : RawPolicy)
  | unknown
deriving DecidableEq

/-- The repository's `PolicyStructure` (table_okta_password_policy.go,
lines 177-191). -/
structure PolicyStructure where
  settings : Option String
  conditions : Option Unit
  created : Option Nat
  description : String
  id : String
  lastUpdated : Option Nat
  name : String
  priority : Int
  system : Bool
  status : String
  ptype : String
deriving DecidableEq

/-- Model of `getStringPtrVal` (lines 155-160). -/
def getStringPtrVal : Option String → String
  | some s => s
  | none => ""

/-- Model of `getInt32PtrVal` (lines 162-167). -/
def getInt32PtrVal : Option Int → Int
  | some i => i
  | none => 0

/-- Model of `getBoolPtrVal` (lines 169-174). -/
def getBoolPtrVal : Option Bool → Bool
  | some b => b
  | none => false

/-- Model of `convertPolicyRespToStruct` (lines 111-152): the outer pointer
may be nil, the actual instance may be nil, and only the PasswordPolicy and
AuthenticatorEnrollmentPolicy variants are recognized; everything else
yields nil. -/
def convertPolicyRespToStruct :
    Option (Option PolicyInstance) → Option PolicyStructure
  | none => none
  | some none => none
  | some (some (PolicyInstance.passwordPolicy p)) =>
    some ⟨p.settings, none, p.created, getStringPtrVal p.description,
      getStringPtrVal p.id, p.lastUpdated, p.name, getInt32PtrVal p.priority,
      getBoolPtrVal p.system, getStringPtrVal p.status, p.ptype⟩
  | some (some (PolicyInstance.authenticatorEnrollmentPolicy p)) =>
    some ⟨p.settings, none, p.created, getStringPtrVal p.description,
      getStringPtrVal p.id, p.lastUpdated, p.name, getInt32PtrVal p.priority,
      getBoolPtrVal p.system, getStringPtrVal p.status, p.ptype⟩
  | some (some _) => none

/-- Model of the policy-type selection of `listPolicies` (lines 60-66). -/
def policyTypeForTable (tableName : String) : String :=
  if tableName == "okta_password_policy" then "PASSWORD"
  else if tableName == "okta_mfa_policy" then "MFA_ENROLL"
  else ""

/-- Trace events of `listPolicies`. -/
inductive PolicyEv where
  | connect
  | fetchFirst (ptype : String)
  | fetchNext (i : Nat)
  | emit (r : PolicyStructure)
deriving DecidableEq

def PolicyEv.isEmit : PolicyEv → Bool
  | PolicyEv.emit _ => true
  | _ => false

def PolicyEv.isFetch : PolicyEv → Bool
  | PolicyEv.fetchFirst _ => true
  | PolicyEv.fetchNext _ => true
  | _ => false

/-- The server's answers for `listPolicies`: the initial `Execute()` yields
a nillable pointer to the union, each `Next` fills a union value whose
actual instance may be nil. -/
structure PolicyPagedResponse where
  first : Except ApiError (Option (Option PolicyInstance))
  rest : List (Except ApiError (Option PolicyInstance))

/-- The paging loop of `listPolicies` (lines 89-105): each continuation
yields one union value; a conversion to nil streams nothing; a continuation
error is returned as-is. -/
def policyPageLoop :
    List (Except ApiError (Option PolicyInstance)) → Option Nat → Nat →
      List PolicyEv × Option ApiError
  | [], _, _ => ([], none)
  | Except.error e :: _, _, i => ([PolicyEv.fetchNext i], some e)
  | Except.ok u :: more, b, i =>
    match convertPolicyRespToStruct (some u) with
    | none =>
      let t := policyPageLoop more b (i + 1)
      (PolicyEv.fetchNext i :: t.1, t.2)
    | some ps =>
      let s := streamItem PolicyEv.emit b ps
      if rowsRemainingZero s.2 then (PolicyEv.fetchNext i :: s.1, none)
      else
        let t := policyPageLoop more s.2 (i + 1)
        (PolicyEv.fetchNext i :: s.1 ++ t.1, t.2)

/-- Model of `listPolicies` (table_okta_password_policy.go, lines 51-108).
A first-page error is returned as-is; a nil response or nil conversion
streams nothing and continues with the paging loop. -/
def listPolicies (tableName : String) (connectErr : Option ApiError)
    (server : PolicyPagedResponse) (budget : Option Nat) : Outcome PolicyEv :=
  match connectErr with
  | some e => ⟨[PolicyEv.connect], some e⟩
  | none =>
    let pt := policyTypeForTable tableName
    match server.first with
    | Except.error e => ⟨[PolicyEv.connect, PolicyEv.fetchFirst pt], some e⟩
    | Except.ok presp =>
      match presp with
      | none =>
        let t := policyPageLoop server.rest budget 1
        ⟨PolicyEv.connect :: PolicyEv.fetchFirst pt :: t.1, t.2⟩
      | some u =>
        match convertPolicyRespToStruct (some u) with
        | none =>
          let t := policyPageLoop server.rest budget 1
          ⟨PolicyEv.connect :: PolicyEv.fetchFirst pt :: t.1, t.2⟩
        | some ps =>
          let s := streamItem PolicyEv.emit budget ps
          if rowsRemainingZero s.2 then
            ⟨PolicyEv.connect :: PolicyEv.fetchFirst pt :: s.1, none⟩
          else
            let t := policyPageLoop server.rest s.2 1
            ⟨PolicyEv.connect :: PolicyEv.fetchFirst pt :: s.1 ++ t.1, t.2⟩

/-! ## Get operations -/

/-- Modelled from the spec: the repository's `isNotFoundError` helper
(declared outside the provided sources, referenced by the tables'
GetConfig.ShouldIgnoreError) builds the ErrorClassifier of section 4.6 from
a fixed table of message substrings: an error is Ignorable exactly when its
message contains one of them. -/
def isNotFoundError (notFoundErrors : List String) (e : ApiError) : Bool :=
  notFoundErrors.any fun s => strContainsSub e.message s

/-- Modelled from the spec: the SDK honours GetConfig.ShouldIgnoreError
(sections 4.6 and 7): an error the classifier marks Ignorable becomes
"no row, no error"; everything else passes through. -/
def applyShouldIgnoreError {α : Type} (ignorable : ApiError → Bool)
    (r : Except ApiError (Option α)) : Except ApiError (Option α) :=
  match r with
  | Except.error e => if ignorable e then Except.ok none else Except.error e
  | Except.ok v => Except.ok v

/-- Model of the hydrate body of `getOktaFactor` (src/unnamed/part_001,
lines 162-206): empty quals yield no row; a GetUser error containing
"Not found" yields `(nil, nil)` inline; a GetFactor error is returned
as-is; a nil GetFactor result yields no row. -/
def getOktaFactorHydrate (userIdQ factorIdQ : String)
    (connectErr : Option ApiError) (getUserRes : Except ApiError OktaUser)
    (getFactorRes : Except ApiError (Option OktaFactor)) :
    Except ApiError (Option UserFactorInfo) :=
  if userIdQ == "" || factorIdQ == "" then Except.ok none
  else
    match connectErr with
    | some e => Except.error e
    | none =>
      match getUserRes with
      | Except.error e =>
        if strContainsSub e.message "Not found" then Except.ok none
        else Except.error e
      | Except.ok user =>
        match getFactorRes with
        | Except.error e => Except.error e
        | Except.ok none => Except.ok none
        | Except.ok (some f) => Except.ok (some ⟨userIdQ, user.login, f⟩)

/-- The okta_factor Get operation: the hydrate wrapped by the table's
`ShouldIgnoreError: isNotFoundError(["Not found", "Invalid Factor"])`
(src/unnamed/part_001, line 25). -/
def getOktaFactor (userIdQ factorIdQ : String) (connectErr : Option ApiError)
    (getUserRes : Except ApiError OktaUser)
    (getFactorRes : Except ApiError (Option OktaFactor)) :
    Except ApiError (Option UserFactorInfo) :=
  applyShouldIgnoreError (isNotFoundError ["Not found", "Invalid Factor"])
    (getOktaFactorHydrate userIdQ factorIdQ connectErr getUserRes getFactorRes)

/-- Model of the hydrate body of `getApplicationAssignedUser`
(table_okta_app_assigned_user.go, lines 198-221): empty quals yield no row;
a GetApplicationUser error is returned as-is. -/
def getApplicationAssignedUserHydrate (appIdQ userIdQ : String)
    (connectErr : Option ApiError) (getRes : Except ApiError AppUser) :
    Except ApiError (Option AppUserInfo) :=
  if appIdQ == "" || userIdQ == "" then Except.ok none
  else
    match connectErr with
    | some e => Except.error e
    | none =>
      match getRes with
      | Except.error e => Except.error e
      | Except.ok u => Except.ok (some ⟨appIdQ, u⟩)

/-- The okta_app_assigned_user Get operation: the hydrate wrapped by the
table's `ShouldIgnoreError: isNotFoundError(["Not found"])` (line 22). -/
def getApplicationAssignedUser (appIdQ userIdQ : String)
    (connectErr : Option ApiError) (getRes : Except ApiError AppUser) :
    Except ApiError (Option AppUserInfo) :=
  applyShouldIgnoreError (isNotFoundError ["Not found"])
    (getApplicationAssignedUserHydrate appIdQ userIdQ connectErr getRes)

/-! ## Enrichment hydrates (src/okta/table_okta_signon_policy.go) -/

/-- The hydrate item `h.Item` of the policy enrichment functions: the types
their switches dispatch on.  The `policy` and `authorizationServerPolicy`
variants carry the already-dereferenced `*item.Id` (a nil Id would panic in
Go and is outside this model). -/
inductive PolicyHydrateItem where
  | policyStructure (p : PolicyStructure)
  | policy (id : String)
  | authorizationServerPolicy (id : String)
  | listPoliciesResp (u : Option PolicyInstance)
  | otherItem
deriving DecidableEq

/-- Model of the policyId extraction of `getOktaPolicyRules` (lines
104-127); in the union case the variant's nillable Id is dereferenced (nil
modelled as the empty string, which Go would panic on). -/
def policyIdOfRules : PolicyHydrateItem → String
  | PolicyHydrateItem.policyStructure p => p.id
  | PolicyHydrateItem.policy i => i
  | PolicyHydrateItem.authorizationServerPolicy i => i
  | PolicyHydrateItem.listPoliciesResp u =>
    match u with
    | some (PolicyInstance.accessPolicy p) => getStringPtrVal p.id
    | some (PolicyInstance.idpDiscoveryPolicy p) => getStringPtrVal p.id
    | some (PolicyInstance.authenticatorEnrollmentPolicy p) => getStringPtrVal p.id
    | some (PolicyInstance.oktaSignOnPolicy p) => getStringPtrVal p.id
    | some (PolicyInstance.passwordPolicy p) => getStringPtrVal p.id
    | _ => ""
  | PolicyHydrateItem.otherItem => ""

/-- Model of the policyId extraction of `getOktaPolicyAssociatedResources`
(lines 183-190): the `ListPolicies200Response` union is not handled there. -/
def policyIdOfResources : PolicyHydrateItem → String
  | PolicyHydrateItem.policyStructure p => p.id
  | PolicyHydrateItem.policy i => i
  | PolicyHydrateItem.authorizationServerPolicy i => i
  | _ => ""

/-- The append-with-error paging pattern the enrichment hydrates share: each
continuation page's items are appended; a page error is returned as-is. -/
def collectRest {α : Type} : List (Except ApiError (List α)) →
    Except ApiError (List α)
  | [] => Except.ok []
  | Except.error e :: _ => Except.error e
  | Except.ok xs :: more =>
    match collectRest more with
    | Except.error e => Except.error e
    | Except.ok ys => Except.ok (xs ++ ys)

/-- The structToMap conversion loop of `getOktaPolicyRules` (lines 161-171):
each rule's actual instance is converted; a conversion error is returned
as-is.  The conversion itself (`structToMap`, repository code outside the
provided sources) is left abstract as `s2m`. -/
def mapRules (s2m : Option String → Except ApiError String) :
    List (Option String) → Except ApiError (List String)
  | [] => Except.ok []
  | r :: rs =>
    match s2m r with
    | Except.error e => Except.error e
    | Except.ok m =>
      match mapRules s2m rs with
      | Except.error e => Except.error e
      | Except.ok ms => Except.ok (m :: ms)

/-- Model of `getOktaPolicyRules` (table_okta_signon_policy.go, lines
97-174).  Note the first `ListPolicyRules` error is returned as-is: this
function has no not-found handling.  Rule items are the opaque result of
`GetActualInstance` (nillable). -/
def getOktaPolicyRules (item : Option PolicyHydrateItem)
    (connectErr : Option ApiError)
    (server : PagedResponse (Option String))
    (s2m : Option String → Except ApiError String) :
    Except ApiError (Option (List String)) :=
  match item with
  | none => Except.ok none
  | some it =>
    if policyIdOfRules it == "" then Except.ok none
    else
      match connectErr with
      | some e => Except.error e
      | none =>
        match server.first with
        | Except.error e => Except.error e
        | Except.ok firstRules =>
          match collectRest server.rest with
          | Except.error e => Except.error e
          | Except.ok restRules =>
            match mapRules s2m (firstRules ++ restRules) with
            | Except.error e => Except.error e
            | Except.ok allRules => Except.ok (some allRules)

/-- Model of Go `strings.ToLower` as the classifier needs it: each
character lowercased (the relevant messages are ASCII). -/
def lowerString (s : String) : String := String.mk (s.toList.map Char.toLower)

/-- The ignorable test of `getOktaPolicyAssociatedResources` (line 207):
the lowercased message contains "not found", or the message contains
"404". -/
def resourcesIgnorable (e : ApiError) : Bool :=
  strContainsSub (lowerString e.message) "not found"
    || strContainsSub e.message "404"

/-- Model of `getOktaPolicyAssociatedResources` (table_okta_signon_policy.go,
lines 176-231).  Only the first `ListPolicyMappings` error is classified
(not-found / 404 yields `(nil, nil)`); continuation errors are returned
as-is.  Mappings are opaque. -/
def getOktaPolicyAssociatedResources (item : Option PolicyHydrateItem)
    (connectErr : Option ApiError) (server : PagedResponse String) :
    Except ApiError (Option (List String)) :=
  match item with
  | none => Except.ok none
  | some it =>
    if policyIdOfResources it == "" then Except.ok none
    else
      match connectErr with
      | some e => Except.error e
      | none =>
        match server.first with
        | Except.error e =>
          if resourcesIgnorable e then Except.ok none else Except.error e
        | Except.ok firstMappings =>
          match collectRest server.rest with
          | Except.error e => Except.error e
          | Except.ok restMappings =>
            Except.ok (some (firstMappings ++ restMappings))


/-! ## Trace discipline: row budget -/

/-- Discipline of a trace with respect to emits-so-far: every fetch event
happens while either nothing has been emitted yet or fewer than N rows
have been emitted.  `base` is the number of rows emitted before the trace
starts. -/
def fetchPositionsOk {ε : Type} (ie isf : ε → Bool) (N : Nat) :
    Nat → List ε → Prop
  | _, [] => True
  | base, x :: xs =>
    (isf x = true → base = 0 ∨ base < N) ∧
    fetchPositionsOk ie isf N (base + (if ie x then 1 else 0)) xs

theorem fetchPositionsOk_of_no_fetch {ε : Type} (ie isf : ε → Bool) (N : Nat) :
    ∀ (l : List ε) (base : Nat), (∀ a ∈ l, isf a = false) →
      fetchPositionsOk ie isf N base l := by
  intro l
  induction l with
  | nil => intro base _; simp [fetchPositionsOk]
  | cons x xs ih =>
    intro base h
    refine ⟨fun hf => ?_, ih _ fun a ha => h a (List.mem_cons_of_mem x ha)⟩
    rw [h x (List.mem_cons_self x xs)] at hf
    cases hf

theorem fetchPositionsOk_append {ε : Type} (ie isf : ε → Bool) (N : Nat) :
    ∀ (a b : List ε) (base : Nat),
      fetchPositionsOk ie isf N base a →
      fetchPositionsOk ie isf N (base + a.countP ie) b →
      fetchPositionsOk ie isf N base (a ++ b) := by
  intro a
  induction a with
  | nil => intro b base _ hb; simpa using hb
  | cons x xs ih =>
    intro b base ha hb
    refine ⟨ha.1, ih b _ ha.2 ?_⟩
    have hh : base + (if ie x then 1 else 0) + xs.countP ie
        = base + (x :: xs).countP ie := by
      rw [List.countP_cons]; cases ie x <;> simp <;> omega
    rw [hh]; exact hb

theorem fetchPositionsOk_decomp {ε : Type} (ie isf : ε → Bool) (N : Nat) :
    ∀ (t1 : List ε) (base : Nat) (e : ε) (t2 : List ε),
      fetchPositionsOk ie isf N base (t1 ++ e :: t2) → isf e = true →
      base + t1.countP ie = 0 ∨ base + t1.countP ie < N := by
  intro t1
  induction t1 with
  | nil =>
    intro base e t2 h hf
    simpa using h.1 hf
  | cons x xs ih =>
    intro base e t2 h hf
    have h2 := ih (base + (if ie x then 1 else 0)) e t2 h.2 hf
    have hh : base + (if ie x then 1 else 0) + xs.countP ie
        = base + (x :: xs).countP ie := by
      rw [List.countP_cons]; cases ie x <;> simp <;> omega
    rw [← hh]
    exact h2

/-- The row-budget property claim C1 states of a trace: at most N rows are
emitted, and no page fetch begins once the N-th row has been emitted (a
fetch may only happen while nothing has been emitted yet, or while strictly
fewer than N rows have been). -/
def budgetRespects {ε : Type} (ie isf : ε → Bool) (N : Nat) (t : List ε) : Prop :=
  t.countP ie ≤ N ∧
  ∀ t1 e t2, t = t1 ++ e :: t2 → isf e = true →
    t1.countP ie = 0 ∨ t1.countP ie < N

theorem budgetRespects_of_fpOk {ε : Type} (ie isf : ε → Bool) (N : Nat)
    (t : List ε) (h1 : t.countP ie ≤ N)
    (h2 : fetchPositionsOk ie isf N 0 t) : budgetRespects ie isf N t := by
  refine ⟨h1, ?_⟩
  intro t1 e t2 ht hf
  have h3 := fetchPositionsOk_decomp ie isf N t1 0 e t2 (by rw [← ht]; exact h2) hf
  simpa using h3

/-! ## Budget lemmas for listOktaFactors -/

theorem streamFactorItems_budget (uid uname : String) :
    ∀ (items : List RawFactor) (m : Nat) (evs : List FactorEv)
      (b : Option Nat) (st : Bool),
      streamFactorItems uid uname items (some m) = (evs, b, st) →
      (∀ e ∈ evs, FactorEv.isFetch e = false) ∧
      b = some (m - evs.countP FactorEv.isEmit) ∧
      evs.countP FactorEv.isEmit ≤ m ∧
      (st = false → evs.countP FactorEv.isEmit < m ∨ m = 0) := by
  intro items
  induction items with
  | nil =>
    intro m evs b st h
    simp only [streamFactorItems, Prod.mk.injEq] at h
    obtain ⟨rfl, rfl, rfl⟩ := h
    refine ⟨by simp, by simp, by simp, fun _ => by simp; omega⟩
  | cons raw rest ih =>
    intro m evs b st h
    cases raw with
    | none => exact ih m evs b st h
    | some inst =>
      match m with
      | 0 =>
        have hred : streamFactorItems uid uname (some inst :: rest) (some 0)
            = ([], some 0, true) := by
          simp [streamFactorItems, streamItem, rowsRemainingZero]
        rw [hred] at h
        simp only [Prod.mk.injEq] at h
        obtain ⟨rfl, rfl, rfl⟩ := h
        refine ⟨by simp, by simp, by simp, by simp⟩
      | Nat.succ n =>
        by_cases hn : n = 0
        · subst hn
          have hred : streamFactorItems uid uname (some inst :: rest) (some 1)
              = ([FactorEv.emit ⟨uid, uname, getFactorDetails inst⟩], some 0, true) := by
            simp [streamFactorItems, streamItem, rowsRemainingZero]
          rw [hred] at h
          simp only [Prod.mk.injEq] at h
          obtain ⟨rfl, rfl, rfl⟩ := h
          refine ⟨?_, ?_, ?_, by simp⟩
          · intro e he
            simp only [List.mem_singleton] at he
            rw [he]; rfl
          · simp [List.countP_cons, FactorEv.isEmit]
          · simp [List.countP_cons, FactorEv.isEmit]
        · rcases hs : streamFactorItems uid uname rest (some n)
            with ⟨sevs, b2, st2⟩
          have hred : streamFactorItems uid uname (some inst :: rest) (some (n + 1))
              = (FactorEv.emit ⟨uid, uname, getFactorDetails inst⟩ :: sevs, b2, st2) := by
            simp [streamFactorItems, streamItem, rowsRemainingZero, hs, hn]
          rw [hred] at h
          simp only [Prod.mk.injEq] at h
          obtain ⟨rfl, rfl, rfl⟩ := h
          obtain ⟨hnf, hb, hle, hst⟩ := ih n sevs b2 st2 hs
          have hcc : (FactorEv.emit ⟨uid, uname, getFactorDetails inst⟩ :: sevs).countP
              FactorEv.isEmit = sevs.countP FactorEv.isEmit + 1 := by
            rw [List.countP_cons]; simp [FactorEv.isEmit]
          refine ⟨?_, ?_, ?_, ?_⟩
          · intro e he
            rcases List.mem_cons.mp he with rfl | he2
            · rfl
            · exact hnf e he2
          · rw [hcc, hb]
            have heq : n - sevs.countP FactorEv.isEmit
                = n + 1 - (sevs.countP FactorEv.isEmit + 1) := by omega
            rw [heq]
          · rw [hcc]; omega
          · intro hstf
            rw [hcc]
            rcases hst hstf with h1 | h1 <;> omega


@[simp] theorem isEmit_connect : FactorEv.isEmit FactorEv.connect = false := rfl

@[simp] theorem isEmit_fetchPage (i : Nat) :
    FactorEv.isEmit (FactorEv.fetchPage i) = false := rfl

@[simp] theorem isEmit_emit (r : UserFactorInfo) :
    FactorEv.isEmit (FactorEv.emit r) = true := rfl

@[simp] theorem isFetch_connect : FactorEv.isFetch FactorEv.connect = false := rfl

@[simp] theorem isFetch_fetchPage (i : Nat) :
    FactorEv.isFetch (FactorEv.fetchPage i) = true := rfl

@[simp] theorem isFetch_emit (r : UserFactorInfo) :
    FactorEv.isFetch (FactorEv.emit r) = false := rfl

theorem factorPageLoop_budget (uid uname : String) :
    ∀ (pages : List (Except ApiError (List RawFactor))) (m base N i : Nat)
      (evs : List FactorEv) (res : Option ApiError),
      factorPageLoop uid uname pages (some m) i = (evs, res) →
      base + m = N → (base = 0 ∨ 1 ≤ m) →
      evs.countP FactorEv.isEmit ≤ m ∧
      fetchPositionsOk FactorEv.isEmit FactorEv.isFetch N base evs := by
  intro pages
  induction pages with
  | nil =>
    intro m base N i evs res h hN hb
    simp only [factorPageLoop, Prod.mk.injEq] at h
    obtain ⟨rfl, rfl⟩ := h
    exact ⟨by simp, by simp [fetchPositionsOk]⟩
  | cons page more ih =>
    intro m base N i evs res h hN hb
    cases page with
    | error e =>
      simp only [factorPageLoop, Prod.mk.injEq] at h
      obtain ⟨rfl, rfl⟩ := h
      constructor
      · simp [List.countP_cons]
      · exact ⟨fun _ => by omega, by simp [fetchPositionsOk]⟩
    | ok items =>
      rcases hs : streamFactorItems uid uname items (some m) with ⟨sevs, b2, st2⟩
      obtain ⟨hnf, hb2, hle, hst⟩ :=
        streamFactorItems_budget uid uname items m sevs b2 st2 hs
      subst hb2
      cases st2 with
      | true =>
        have hred : factorPageLoop uid uname (Except.ok items :: more) (some m) i
            = (FactorEv.fetchPage i :: sevs, none) := by
          simp [factorPageLoop, hs]
        rw [hred] at h
        simp only [Prod.mk.injEq] at h
        obtain ⟨rfl, rfl⟩ := h
        constructor
        · simp only [List.countP_cons, isEmit_fetchPage]
          simpa using hle
        · refine ⟨fun _ => by omega, ?_⟩
          exact fetchPositionsOk_of_no_fetch FactorEv.isEmit FactorEv.isFetch N
            sevs base hnf
      | false =>
        rcases hr : factorPageLoop uid uname more
            (some (m - sevs.countP FactorEv.isEmit)) (i + 1) with ⟨revs, rres⟩
        have hred : factorPageLoop uid uname (Except.ok items :: more) (some m) i
            = ((FactorEv.fetchPage i :: sevs) ++ revs, rres) := by
          simp [factorPageLoop, hs, hr]
        rw [hred] at h
        simp only [Prod.mk.injEq] at h
        obtain ⟨rfl, rfl⟩ := h
        have hside : base + sevs.countP FactorEv.isEmit = 0 ∨
            1 ≤ m - sevs.countP FactorEv.isEmit := by
          rcases hst rfl with h1 | h1 <;> rcases hb with h2 | h2 <;> omega
        obtain ⟨hrle, hrfp⟩ := ih (m - sevs.countP FactorEv.isEmit)
          (base + sevs.countP FactorEv.isEmit) N (i + 1) revs rres hr (by omega) hside
        constructor
        · simp [List.countP_append, List.countP_cons]
          omega
        · refine fetchPositionsOk_append FactorEv.isEmit FactorEv.isFetch N
            (FactorEv.fetchPage i :: sevs) revs base ?_ ?_
          · refine ⟨fun _ => by omega, ?_⟩
            exact fetchPositionsOk_of_no_fetch FactorEv.isEmit FactorEv.isFetch N
              sevs base hnf
          · have hcc : (FactorEv.fetchPage i :: sevs).countP FactorEv.isEmit
                = sevs.countP FactorEv.isEmit := by
              simp [List.countP_cons]
            rw [hcc]
            exact hrfp

theorem listOktaFactors_budget (item : Option OktaUser) (qual : Option QualValue)
    (ce : Option ApiError) (server : PagedResponse RawFactor) (N : Nat) :
    budgetRespects FactorEv.isEmit FactorEv.isFetch N
      (listOktaFactors item qual ce server (some N)).trace := by
  have hconn : ∀ base, fetchPositionsOk FactorEv.isEmit FactorEv.isFetch N base
      [FactorEv.connect] :=
    fun base => ⟨fun hf => by simp at hf, by simp [fetchPositionsOk]⟩
  have htwo : fetchPositionsOk FactorEv.isEmit FactorEv.isFetch N 0
      [FactorEv.connect, FactorEv.fetchPage 0] := by
    refine ⟨fun hf => by simp at hf, ?_, by simp [fetchPositionsOk]⟩
    intro _
    simp
  cases ce with
  | some e =>
    have hred : listOktaFactors item qual (some e) server (some N)
        = ⟨[FactorEv.connect], some e⟩ := rfl
    rw [hred]
    exact budgetRespects_of_fpOk _ _ _ _ (by simp) (hconn 0)
  | none =>
    by_cases hp : factorQualPrunes qual (userIdOf item) = true
    · have hred : listOktaFactors item qual none server (some N)
          = ⟨[FactorEv.connect], none⟩ := by
        simp [listOktaFactors, hp]
      rw [hred]
      exact budgetRespects_of_fpOk _ _ _ _ (by simp) (hconn 0)
    · by_cases hu : (userIdOf item == "") = true
      · have hred : listOktaFactors item qual none server (some N)
            = ⟨[FactorEv.connect], none⟩ := by
          simp [listOktaFactors, hp, hu]
        rw [hred]
        exact budgetRespects_of_fpOk _ _ _ _ (by simp) (hconn 0)
      · cases hfirst : server.first with
        | error e =>
          by_cases hnf : strContainsSub e.message "Not found" = true
          · have hred : (listOktaFactors item qual none server (some N)).trace
                = [FactorEv.connect, FactorEv.fetchPage 0] := by
              simp [listOktaFactors, hp, hu, hfirst, hnf]
            rw [hred]
            exact budgetRespects_of_fpOk _ _ _ _ (by simp) htwo
          · have hred : (listOktaFactors item qual none server (some N)).trace
                = [FactorEv.connect, FactorEv.fetchPage 0] := by
              simp [listOktaFactors, hp, hu, hfirst, hnf]
            rw [hred]
            exact budgetRespects_of_fpOk _ _ _ _ (by simp) htwo
        | ok items =>
          rcases hs : streamFactorItems (userIdOf item) (userNameOf item) items (some N)
            with ⟨sevs, b2, st2⟩
          obtain ⟨hsnf, hb2, hle, hst⟩ :=
            streamFactorItems_budget (userIdOf item) (userNameOf item) items N sevs b2 st2 hs
          subst hb2
          cases st2 with
          | true =>
            have hred : (listOktaFactors item qual none server (some N)).trace
                = FactorEv.connect :: FactorEv.fetchPage 0 :: sevs := by
              simp [listOktaFactors, hp, hu, hfirst, hs]
            rw [hred]
            refine budgetRespects_of_fpOk _ _ _ _ ?_ ?_
            · simp only [List.countP_cons, isEmit_connect, isEmit_fetchPage]
              simpa using hle
            · refine ⟨fun hf => by simp at hf, ?_, ?_⟩
              · intro _; simp
              · exact fetchPositionsOk_of_no_fetch FactorEv.isEmit FactorEv.isFetch N
                  sevs 0 hsnf
          | false =>
            rcases hr : factorPageLoop (userIdOf item) (userNameOf item) server.rest
                (some (N - sevs.countP FactorEv.isEmit)) 1 with ⟨revs, rres⟩
            have hred : (listOktaFactors item qual none server (some N)).trace
                = (FactorEv.connect :: FactorEv.fetchPage 0 :: sevs) ++ revs := by
              simp [listOktaFactors, hp, hu, hfirst, hs, hr]
            rw [hred]
            have hside : sevs.countP FactorEv.isEmit = 0 ∨
                1 ≤ N - sevs.countP FactorEv.isEmit := by
              rcases hst rfl with h1 | h1 <;> omega
            obtain ⟨hrle, hrfp⟩ := factorPageLoop_budget (userIdOf item) (userNameOf item)
              server.rest (N - sevs.countP FactorEv.isEmit) (sevs.countP FactorEv.isEmit)
              N 1 revs rres hr (by omega) (by simpa using hside)
            refine budgetRespects_of_fpOk _ _ _ _ ?_ ?_
            · simp [List.countP_append, List.countP_cons]
              omega
            · refine fetchPositionsOk_append FactorEv.isEmit FactorEv.isFetch N
                (FactorEv.connect :: FactorEv.fetchPage 0 :: sevs) revs 0 ?_ ?_
              · refine ⟨fun hf => by simp at hf, ?_, ?_⟩
                · intro _; simp
                · exact fetchPositionsOk_of_no_fetch FactorEv.isEmit FactorEv.isFetch N
                    sevs 0 hsnf
              · have hcc : (FactorEv.connect :: FactorEv.fetchPage 0 :: sevs).countP
                    FactorEv.isEmit = sevs.countP FactorEv.isEmit := by
                  simp [List.countP_cons]
                rw [hcc]
                simpa using hrfp

/-! ## Budget lemmas for listApplicationAssignedUsers -/

@[simp] theorem appIsEmit_connect : AppEv.isEmit AppEv.connect = false := rfl

@[simp] theorem appIsEmit_fetchFirst (a : String) (l : Int) (q : String) :
    AppEv.isEmit (AppEv.fetchFirst a l q) = false := rfl

@[simp] theorem appIsEmit_fetchNext (i : Nat) :
    AppEv.isEmit (AppEv.fetchNext i) = false := rfl

@[simp] theorem appIsEmit_emit (r : AppUserInfo) :
    AppEv.isEmit (AppEv.emit r) = true := rfl

@[simp] theorem appIsFetch_connect : AppEv.isFetch AppEv.connect = false := rfl

@[simp] theorem appIsFetch_fetchFirst (a : String) (l : Int) (q : String) :
    AppEv.isFetch (AppEv.fetchFirst a l q) = true := rfl

@[simp] theorem appIsFetch_fetchNext (i : Nat) :
    AppEv.isFetch (AppEv.fetchNext i) = true := rfl

@[simp] theorem appIsFetch_emit (r : AppUserInfo) :
    AppEv.isFetch (AppEv.emit r) = false := rfl

theorem streamAppUsers_budget (appId : String) :
    ∀ (us : List AppUser) (m : Nat) (evs : List AppEv)
      (b : Option Nat) (st : Bool),
      streamAppUsers appId us (some m) = (evs, b, st) →
      (∀ e ∈ evs, AppEv.isFetch e = false) ∧
      b = some (m - evs.countP AppEv.isEmit) ∧
      evs.countP AppEv.isEmit ≤ m ∧
      (st = false → evs.countP AppEv.isEmit < m ∨ m = 0) := by
  intro us
  induction us with
  | nil =>
    intro m evs b st h
    simp only [streamAppUsers, Prod.mk.injEq] at h
    obtain ⟨rfl, rfl, rfl⟩ := h
    refine ⟨by simp, by simp, by simp, fun _ => by simp; omega⟩
  | cons u rest ih =>
    intro m evs b st h
    match m with
    | 0 =>
      have hred : streamAppUsers appId (u :: rest) (some 0)
          = ([], some 0, true) := by
        simp [streamAppUsers, streamItem, rowsRemainingZero]
      rw [hred] at h
      simp only [Prod.mk.injEq] at h
      obtain ⟨rfl, rfl, rfl⟩ := h
      refine ⟨by simp, by simp, by simp, by simp⟩
    | Nat.succ n =>
      by_cases hn : n = 0
      · subst hn
        have hred : streamAppUsers appId (u :: rest) (some 1)
            = ([AppEv.emit ⟨appId, u⟩], some 0, true) := by
          simp [streamAppUsers, streamItem, rowsRemainingZero]
        rw [hred] at h
        simp only [Prod.mk.injEq] at h
        obtain ⟨rfl, rfl, rfl⟩ := h
        refine ⟨?_, by simp [List.countP_cons], by simp [List.countP_cons], by simp⟩
        intro e he
        simp only [List.mem_singleton] at he
        rw [he]; rfl
      · rcases hs : streamAppUsers appId rest (some n) with ⟨sevs, b2, st2⟩
        have hred : streamAppUsers appId (u :: rest) (some (n + 1))
            = (AppEv.emit ⟨appId, u⟩ :: sevs, b2, st2) := by
          simp [streamAppUsers, streamItem, rowsRemainingZero, hs, hn]
        rw [hred] at h
        simp only [Prod.mk.injEq] at h
        obtain ⟨rfl, rfl, rfl⟩ := h
        obtain ⟨hnf, hb, hle, hst⟩ := ih n sevs b2 st2 hs
        have hcc : (AppEv.emit ⟨appId, u⟩ :: sevs).countP AppEv.isEmit
            = sevs.countP AppEv.isEmit + 1 := by
          simp [List.countP_cons]
        refine ⟨?_, ?_, ?_, ?_⟩
        · intro e he
          rcases List.mem_cons.mp he with rfl | he2
          · rfl
          · exact hnf e he2
        · rw [hcc, hb]
          have heq : n - sevs.countP AppEv.isEmit
              = n + 1 - (sevs.countP AppEv.isEmit + 1) := by omega
          rw [heq]
        · rw [hcc]; omega
        · intro hstf
          rw [hcc]
          rcases hst hstf with h1 | h1 <;> omega

theorem appPageLoop_budget (appId : String) :
    ∀ (pages : List (Except ApiError (List AppUser))) (m base N i : Nat)
      (evs : List AppEv) (res : Option ApiError),
      appPageLoop appId pages (some m) i = (evs, res) →
      base + m = N → (base = 0 ∨ 1 ≤ m) →
      evs.countP AppEv.isEmit ≤ m ∧
      fetchPositionsOk AppEv.isEmit AppEv.isFetch N base evs := by
  intro pages
  induction pages with
  | nil =>
    intro m base N i evs res h hN hb
    simp only [appPageLoop, Prod.mk.injEq] at h
    obtain ⟨rfl, rfl⟩ := h
    exact ⟨by simp, by simp [fetchPositionsOk]⟩
  | cons page more ih =>
    intro m base N i evs res h hN hb
    cases page with
    | error e =>
      simp only [appPageLoop, Prod.mk.injEq] at h
      obtain ⟨rfl, rfl⟩ := h
      constructor
      · simp [List.countP_cons]
      · exact ⟨fun _ => by omega, by simp [fetchPositionsOk]⟩
    | ok us =>
      rcases hs : streamAppUsers appId us (some m) with ⟨sevs, b2, st2⟩
      obtain ⟨hnf, hb2, hle, hst⟩ := streamAppUsers_budget appId us m sevs b2 st2 hs
      subst hb2
      cases st2 with
      | true =>
        have hred : appPageLoop appId (Except.ok us :: more) (some m) i
            = (AppEv.fetchNext i :: sevs, none) := by
          simp [appPageLoop, hs]
        rw [hred] at h
        simp only [Prod.mk.injEq] at h
        obtain ⟨rfl, rfl⟩ := h
        constructor
        · simp only [List.countP_cons, appIsEmit_fetchNext]
          simpa using hle
        · refine ⟨fun _ => by omega, ?_⟩
          exact fetchPositionsOk_of_no_fetch AppEv.isEmit AppEv.isFetch N
            sevs base hnf
      | false =>
        rcases hr : appPageLoop appId more
            (some (m - sevs.countP AppEv.isEmit)) (i + 1) with ⟨revs, rres⟩
        have hred : appPageLoop appId (Except.ok us :: more) (some m) i
            = ((AppEv.fetchNext i :: sevs) ++ revs, rres) := by
          simp [appPageLoop, hs, hr]
        rw [hred] at h
        simp only [Prod.mk.injEq] at h
        obtain ⟨rfl, rfl⟩ := h
        have hside : base + sevs.countP AppEv.isEmit = 0 ∨
            1 ≤ m - sevs.countP AppEv.isEmit := by
          rcases hst rfl with h1 | h1 <;> rcases hb with h2 | h2 <;> omega
        obtain ⟨hrle, hrfp⟩ := ih (m - sevs.countP AppEv.isEmit)
          (base + sevs.countP AppEv.isEmit) N (i + 1) revs rres hr (by omega) hside
        constructor
        · simp [List.countP_append, List.countP_cons]
          omega
        · refine fetchPositionsOk_append AppEv.isEmit AppEv.isFetch N
            (AppEv.fetchNext i :: sevs) revs base ?_ ?_
          · refine ⟨fun _ => by omega, ?_⟩
            exact fetchPositionsOk_of_no_fetch AppEv.isEmit AppEv.isFetch N
              sevs base hnf
          · have hcc : (AppEv.fetchNext i :: sevs).countP AppEv.isEmit
                = sevs.countP AppEv.isEmit := by
              simp [List.countP_cons]
            rw [hcc]
            exact hrfp

theorem listApplicationAssignedUsers_budget (item : AppParentItem)
    (uq fq eq2 : Option QualValue) (ce : Option ApiError) (lim : Option Int)
    (server : PagedResponse AppUser) (N : Nat) :
    budgetRespects AppEv.isEmit AppEv.isFetch N
      (listApplicationAssignedUsers item uq fq eq2 ce lim server (some N)).trace := by
  by_cases ha : (extractAppId item == "") = true
  · have hred : (listApplicationAssignedUsers item uq fq eq2 ce lim server (some N)).trace
        = [] := by
      simp [listApplicationAssignedUsers, ha]
    rw [hred]
    exact budgetRespects_of_fpOk _ _ _ _ (by simp) (by simp [fetchPositionsOk])
  · cases ce with
    | some e =>
      have hred : (listApplicationAssignedUsers item uq fq eq2 (some e) lim server
          (some N)).trace = [AppEv.connect] := by
        simp [listApplicationAssignedUsers, ha]
      rw [hred]
      exact budgetRespects_of_fpOk _ _ _ _ (by simp)
        ⟨fun hf => by simp at hf, by simp [fetchPositionsOk]⟩
    | none =>
      cases hfirst : server.first with
      | error e =>
        have hred : (listApplicationAssignedUsers item uq fq eq2 none lim server
            (some N)).trace = [AppEv.connect, AppEv.fetchFirst (extractAppId item)
              (appMaxLimit lim) (chooseQ (dEqualsQualString uq) (dEqualsQualString fq)
                (dEqualsQualString eq2))] := by
          simp [listApplicationAssignedUsers, ha, hfirst]
        rw [hred]
        refine budgetRespects_of_fpOk _ _ _ _ (by simp) ?_
        exact ⟨fun hf => by simp at hf, fun _ => by simp, by simp [fetchPositionsOk]⟩
      | ok us =>
        rcases hs : streamAppUsers (extractAppId item) us (some N)
          with ⟨sevs, b2, st2⟩
        obtain ⟨hsnf, hb2, hle, hst⟩ :=
          streamAppUsers_budget (extractAppId item) us N sevs b2 st2 hs
        subst hb2
        cases st2 with
        | true =>
          have hred : (listApplicationAssignedUsers item uq fq eq2 none lim server
              (some N)).trace = AppEv.connect :: AppEv.fetchFirst (extractAppId item)
                (appMaxLimit lim) (chooseQ (dEqualsQualString uq) (dEqualsQualString fq)
                  (dEqualsQualString eq2)) :: sevs := by
            simp [listApplicationAssignedUsers, ha, hfirst, hs]
          rw [hred]
          refine budgetRespects_of_fpOk _ _ _ _ ?_ ?_
          · simp only [List.countP_cons, appIsEmit_connect, appIsEmit_fetchFirst]
            simpa using hle
          · refine ⟨fun hf => by simp at hf, fun _ => by simp, ?_⟩
            exact fetchPositionsOk_of_no_fetch AppEv.isEmit AppEv.isFetch N
              sevs 0 hsnf
        | false =>
          rcases hr : appPageLoop (extractAppId item) server.rest
              (some (N - sevs.countP AppEv.isEmit)) 1 with ⟨revs, rres⟩
          have hred : (listApplicationAssignedUsers item uq fq eq2 none lim server
              (some N)).trace = (AppEv.connect :: AppEv.fetchFirst (extractAppId item)
                (appMaxLimit lim) (chooseQ (dEqualsQualString uq) (dEqualsQualString fq)
                  (dEqualsQualString eq2)) :: sevs) ++ revs := by
            simp [listApplicationAssignedUsers, ha, hfirst, hs, hr]
          rw [hred]
          have hside : sevs.countP AppEv.isEmit = 0 ∨
              1 ≤ N - sevs.countP AppEv.isEmit := by
            rcases hst rfl with h1 | h1 <;> omega
          obtain ⟨hrle, hrfp⟩ := appPageLoop_budget (extractAppId item)
            server.rest (N - sevs.countP AppEv.isEmit) (sevs.countP AppEv.isEmit)
            N 1 revs rres hr (by omega) (by simpa using hside)
          refine budgetRespects_of_fpOk _ _ _ _ ?_ ?_
          · simp [List.countP_append, List.countP_cons]
            omega
          · refine fetchPositionsOk_append AppEv.isEmit AppEv.isFetch N
              (AppEv.connect :: AppEv.fetchFirst (extractAppId item)
                (appMaxLimit lim) (chooseQ (dEqualsQualString uq) (dEqualsQualString fq)
                  (dEqualsQualString eq2)) :: sevs) revs 0 ?_ ?_
            · refine ⟨fun hf => by simp at hf, fun _ => by simp, ?_⟩
              exact fetchPositionsOk_of_no_fetch AppEv.isEmit AppEv.isFetch N
                sevs 0 hsnf
            · have hcc : (AppEv.connect :: AppEv.fetchFirst (extractAppId item)
                  (appMaxLimit lim) (chooseQ (dEqualsQualString uq) (dEqualsQualString fq)
                    (dEqualsQualString eq2)) :: sevs).countP AppEv.isEmit
                  = sevs.countP AppEv.isEmit := by
                simp [List.countP_cons]
              rw [hcc]
              simpa using hrfp

/-! ## Budget lemmas for listPolicies -/

@[simp] theorem polIsEmit_connect : PolicyEv.isEmit PolicyEv.connect = false := rfl

@[simp] theorem polIsEmit_fetchFirst (pt : String) :
    PolicyEv.isEmit (PolicyEv.fetchFirst pt) = false := rfl

@[simp] theorem polIsEmit_fetchNext (i : Nat) :
    PolicyEv.isEmit (PolicyEv.fetchNext i) = false := rfl

@[simp] theorem polIsEmit_emit (r : PolicyStructure) :
    PolicyEv.isEmit (PolicyEv.emit r) = true := rfl

@[simp] theorem polIsFetch_connect : PolicyEv.isFetch PolicyEv.connect = false := rfl

@[simp] theorem polIsFetch_fetchFirst (pt : String) :
    PolicyEv.isFetch (PolicyEv.fetchFirst pt) = true := rfl

@[simp] theorem polIsFetch_fetchNext (i : Nat) :
    PolicyEv.isFetch (PolicyEv.fetchNext i) = true := rfl

@[simp] theorem polIsFetch_emit (r : PolicyStructure) :
    PolicyEv.isFetch (PolicyEv.emit r) = false := rfl

theorem policyPageLoop_budget :
    ∀ (pages : List (Except ApiError (Option PolicyInstance))) (m base N i : Nat)
      (evs : List PolicyEv) (res : Option ApiError),
      policyPageLoop pages (some m) i = (evs, res) →
      base + m = N → (base = 0 ∨ 1 ≤ m) →
      evs.countP PolicyEv.isEmit ≤ m ∧
      fetchPositionsOk PolicyEv.isEmit PolicyEv.isFetch N base evs := by
  intro pages
  induction pages with
  | nil =>
    intro m base N i evs res h hN hb
    simp only [policyPageLoop, Prod.mk.injEq] at h
    obtain ⟨rfl, rfl⟩ := h
    exact ⟨by simp, by simp [fetchPositionsOk]⟩
  | cons page more ih =>
    intro m base N i evs res h hN hb
    cases page with
    | error e =>
      simp only [policyPageLoop, Prod.mk.injEq] at h
      obtain ⟨rfl, rfl⟩ := h
      constructor
      · simp [List.countP_cons]
      · exact ⟨fun _ => by omega, by simp [fetchPositionsOk]⟩
    | ok u =>
      cases hconv : convertPolicyRespToStruct (some u) with
      | none =>
        rcases hr : policyPageLoop more (some m) (i + 1) with ⟨revs, rres⟩
        have hred : policyPageLoop (Except.ok u :: more) (some m) i
            = (PolicyEv.fetchNext i :: revs, rres) := by
          simp [policyPageLoop, hconv, hr]
        rw [hred] at h
        simp only [Prod.mk.injEq] at h
        obtain ⟨rfl, rfl⟩ := h
        obtain ⟨hrle, hrfp⟩ := ih m base N (i + 1) revs rres hr hN hb
        constructor
        · simp only [List.countP_cons, polIsEmit_fetchNext]
          simpa using hrle
        · exact ⟨fun _ => by omega, hrfp⟩
      | some ps =>
        match m with
        | 0 =>
          have hred : policyPageLoop (Except.ok u :: more) (some 0) i
              = ([PolicyEv.fetchNext i], none) := by
            simp [policyPageLoop, hconv, streamItem, rowsRemainingZero]
          rw [hred] at h
          simp only [Prod.mk.injEq] at h
          obtain ⟨rfl, rfl⟩ := h
          constructor
          · simp [List.countP_cons]
          · exact ⟨fun _ => by omega, by simp [fetchPositionsOk]⟩
        | Nat.succ n =>
          by_cases hn : n = 0
          · subst hn
            have hred : policyPageLoop (Except.ok u :: more) (some 1) i
                = ([PolicyEv.fetchNext i, PolicyEv.emit ps], none) := by
              simp [policyPageLoop, hconv, streamItem, rowsRemainingZero]
            rw [hred] at h
            simp only [Prod.mk.injEq] at h
            obtain ⟨rfl, rfl⟩ := h
            constructor
            · simp [List.countP_cons]
            · exact ⟨fun _ => by omega, fun hf => by simp at hf,
                by simp [fetchPositionsOk]⟩
          · rcases hr : policyPageLoop more (some n) (i + 1) with ⟨revs, rres⟩
            have hred : policyPageLoop (Except.ok u :: more) (some (n + 1)) i
                = ((PolicyEv.fetchNext i :: [PolicyEv.emit ps]) ++ revs, rres) := by
              simp [policyPageLoop, hconv, streamItem, rowsRemainingZero, hn, hr]
            rw [hred] at h
            simp only [Prod.mk.injEq] at h
            obtain ⟨rfl, rfl⟩ := h
            obtain ⟨hrle, hrfp⟩ := ih n (base + 1) N (i + 1) revs rres hr
              (by omega) (by omega)
            constructor
            · simp [List.countP_append, List.countP_cons]
              omega
            · refine fetchPositionsOk_append PolicyEv.isEmit PolicyEv.isFetch N
                (PolicyEv.fetchNext i :: [PolicyEv.emit ps]) revs base ?_ ?_
              · exact ⟨fun _ => by omega, fun hf => by simp at hf,
                  by simp [fetchPositionsOk]⟩
              · have hcc : (PolicyEv.fetchNext i :: [PolicyEv.emit ps]).countP
                    PolicyEv.isEmit = 1 := by
                  simp [List.countP_cons]
                rw [hcc]
                exact hrfp

theorem listPolicies_budget (tn : String) (ce : Option ApiError)
    (server : PolicyPagedResponse) (N : Nat) :
    budgetRespects PolicyEv.isEmit PolicyEv.isFetch N
      (listPolicies tn ce server (some N)).trace := by
  cases ce with
  | some e =>
    have hred : (listPolicies tn (some e) server (some N)).trace
        = [PolicyEv.connect] := rfl
    rw [hred]
    exact budgetRespects_of_fpOk _ _ _ _ (by simp)
      ⟨fun hf => by simp at hf, by simp [fetchPositionsOk]⟩
  | none =>
    have htwo : fetchPositionsOk PolicyEv.isEmit PolicyEv.isFetch N 0
        [PolicyEv.connect, PolicyEv.fetchFirst (policyTypeForTable tn)] :=
      ⟨fun hf => by simp at hf, fun _ => by simp, by simp [fetchPositionsOk]⟩
    cases hfirst : server.first with
    | error e =>
      have hred : (listPolicies tn none server (some N)).trace
          = [PolicyEv.connect, PolicyEv.fetchFirst (policyTypeForTable tn)] := by
        simp [listPolicies, hfirst]
      rw [hred]
      exact budgetRespects_of_fpOk _ _ _ _ (by simp) htwo
    | ok presp =>
      have hloop : ∀ (revs : List PolicyEv) (rres : Option ApiError) (m : Nat),
          policyPageLoop server.rest (some m) 1 = (revs, rres) → N = m →
          budgetRespects PolicyEv.isEmit PolicyEv.isFetch N
            ((PolicyEv.connect :: PolicyEv.fetchFirst (policyTypeForTable tn) :: revs)) := by
        intro revs rres m hr hm
        subst hm
        obtain ⟨hrle, hrfp⟩ := policyPageLoop_budget server.rest N 0 N 1 revs rres hr
          (by omega) (Or.inl rfl)
        refine budgetRespects_of_fpOk _ _ _ _ ?_ ?_
        · simp only [List.countP_cons, polIsEmit_connect, polIsEmit_fetchFirst]
          simpa using hrle
        · exact ⟨fun hf => by simp at hf, fun _ => by simp, hrfp⟩
      cases hu : presp with
      | none =>
        rcases hr : policyPageLoop server.rest (some N) 1 with ⟨revs, rres⟩
        have hred : (listPolicies tn none server (some N)).trace
            = PolicyEv.connect :: PolicyEv.fetchFirst (policyTypeForTable tn) :: revs := by
          simp [listPolicies, hfirst, hu, hr]
        rw [hred]
        exact hloop revs rres N hr rfl
      | some u =>
        cases hconv : convertPolicyRespToStruct (some u) with
        | none =>
          rcases hr : policyPageLoop server.rest (some N) 1 with ⟨revs, rres⟩
          have hred : (listPolicies tn none server (some N)).trace
              = PolicyEv.connect :: PolicyEv.fetchFirst (policyTypeForTable tn) :: revs := by
            simp [listPolicies, hfirst, hu, hconv, hr]
          rw [hred]
          exact hloop revs rres N hr rfl
        | some ps =>
          match N with
          | 0 =>
            have hred : (listPolicies tn none server (some 0)).trace
                = [PolicyEv.connect, PolicyEv.fetchFirst (policyTypeForTable tn)] := by
              simp [listPolicies, hfirst, hu, hconv, streamItem, rowsRemainingZero]
            rw [hred]
            exact budgetRespects_of_fpOk _ _ _ _ (by simp) htwo
          | Nat.succ n =>
            by_cases hn : n = 0
            · subst hn
              have hred : (listPolicies tn none server (some 1)).trace
                  = [PolicyEv.connect, PolicyEv.fetchFirst (policyTypeForTable tn),
                      PolicyEv.emit ps] := by
                simp [listPolicies, hfirst, hu, hconv, streamItem, rowsRemainingZero]
              rw [hred]
              refine budgetRespects_of_fpOk _ _ _ _ (by simp [List.countP_cons]) ?_
              exact ⟨fun hf => by simp at hf, fun _ => by simp,
                fun hf => by simp at hf, by simp [fetchPositionsOk]⟩
            · rcases hr : policyPageLoop server.rest (some n) 1 with ⟨revs, rres⟩
              have hred : (listPolicies tn none server (some (n + 1))).trace
                  = (PolicyEv.connect :: PolicyEv.fetchFirst (policyTypeForTable tn)
                      :: [PolicyEv.emit ps]) ++ revs := by
                simp [listPolicies, hfirst, hu, hconv, streamItem, rowsRemainingZero, hn, hr]
              rw [hred]
              obtain ⟨hrle, hrfp⟩ := policyPageLoop_budget server.rest n 1 (n + 1) 1
                revs rres hr (by omega) (by omega)
              refine budgetRespects_of_fpOk _ _ _ _ ?_ ?_
              · simp [List.countP_append, List.countP_cons]
                omega
              · refine fetchPositionsOk_append PolicyEv.isEmit PolicyEv.isFetch (n + 1)
                  (PolicyEv.connect :: PolicyEv.fetchFirst (policyTypeForTable tn)
                    :: [PolicyEv.emit ps]) revs 0 ?_ ?_
                · exact ⟨fun hf => by simp at hf, fun _ => by simp,
                    fun hf => by simp at hf, by simp [fetchPositionsOk]⟩
                · have hcc : (PolicyEv.connect :: PolicyEv.fetchFirst (policyTypeForTable tn)
                      :: [PolicyEv.emit ps]).countP PolicyEv.isEmit = 1 := by
                    simp [List.countP_cons]
                  rw [hcc]
                  simpa using hrfp

/-- C1: For every caller-supplied row limit N >= 0, each List operation
streams at most N rows, and once the remaining-row budget reaches zero
immediately after an emitted row the function returns without requesting
any further page: in its trace, every page fetch happens while either no
row or strictly fewer than N rows have been emitted, so no new page fetch
begins after the N-th row is emitted.  Holds for listOktaFactors,
listApplicationAssignedUsers and listPolicies. -/
theorem claim1_row_budget (N : Nat)
    (item : Option OktaUser) (qual : Option QualValue) (ce1 : Option ApiError)
    (fserver : PagedResponse RawFactor)
    (aitem : AppParentItem) (uq fq eq2 : Option QualValue) (ce2 : Option ApiError)
    (lim : Option Int) (aserver : PagedResponse AppUser)
    (tn : String) (ce3 : Option ApiError) (pserver : PolicyPagedResponse) :
    budgetRespects FactorEv.isEmit FactorEv.isFetch N
      (listOktaFactors item qual ce1 fserver (some N)).trace ∧
    budgetRespects AppEv.isEmit AppEv.isFetch N
      (listApplicationAssignedUsers aitem uq fq eq2 ce2 lim aserver (some N)).trace ∧
    budgetRespects PolicyEv.isEmit PolicyEv.isFetch N
      (listPolicies tn ce3 pserver (some N)).trace :=
  ⟨listOktaFactors_budget item qual ce1 fserver N,
   listApplicationAssignedUsers_budget aitem uq fq eq2 ce2 lim aserver N,
   listPolicies_budget tn ce3 pserver N⟩

/-! ## Unbounded-budget traces -/

theorem streamFactorItems_unbounded (uid uname : String) :
    ∀ (items : List RawFactor),
      streamFactorItems uid uname items none
        = ((factorRows uid uname items).map FactorEv.emit, none, false) := by
  intro items
  induction items with
  | nil => simp [streamFactorItems, factorRows]
  | cons raw rest ih =>
    cases raw with
    | none => simpa [factorRows] using ih
    | some inst =>
      simp [streamFactorItems, streamItem, rowsRemainingZero, ih, factorRows]

theorem factorPageLoop_unbounded (uid uname : String) :
    ∀ (pages : List (List RawFactor)) (i : Nat),
      factorPageLoop uid uname (pages.map Except.ok) none i
        = (factorPagesTrace uid uname pages i, none) := by
  intro pages
  induction pages with
  | nil => intro i; simp [factorPageLoop, factorPagesTrace]
  | cons p ps ih =>
    intro i
    simp [factorPageLoop, streamFactorItems_unbounded, factorPagesTrace, ih]

theorem listOktaFactors_unbounded (item : Option OktaUser) (qual : Option QualValue)
    (p1 : List RawFactor) (ps : List (List RawFactor))
    (hp : factorQualPrunes qual (userIdOf item) = false)
    (hu : userIdOf item ≠ "") :
    listOktaFactors item qual none ⟨Except.ok p1, ps.map Except.ok⟩ none
      = ⟨FactorEv.connect :: factorPagesTrace (userIdOf item) (userNameOf item)
          (p1 :: ps) 0, none⟩ := by
  simp [listOktaFactors, hp, hu, streamFactorItems_unbounded,
    factorPageLoop_unbounded, factorPagesTrace]

theorem streamAppUsers_unbounded (appId : String) :
    ∀ (us : List AppUser),
      streamAppUsers appId us none
        = ((appRows appId us).map AppEv.emit, none, false) := by
  intro us
  induction us with
  | nil => simp [streamAppUsers, appRows]
  | cons u rest ih =>
    simp [streamAppUsers, streamItem, rowsRemainingZero, ih, appRows]

theorem appPageLoop_unbounded (appId : String) :
    ∀ (pages : List (List AppUser)) (i : Nat),
      appPageLoop appId (pages.map Except.ok) none i
        = (appPagesTrace appId pages i, none) := by
  intro pages
  induction pages with
  | nil => intro i; simp [appPageLoop, appPagesTrace]
  | cons p ps ih =>
    intro i
    simp [appPageLoop, streamAppUsers_unbounded, appPagesTrace, ih]

theorem listApplicationAssignedUsers_unbounded (item : AppParentItem)
    (uq fq eq2 : Option QualValue) (lim : Option Int)
    (p1 : List AppUser) (ps : List (List AppUser))
    (ha : extractAppId item ≠ "") :
    listApplicationAssignedUsers item uq fq eq2 none lim
        ⟨Except.ok p1, ps.map Except.ok⟩ none
      = ⟨AppEv.connect :: AppEv.fetchFirst (extractAppId item) (appMaxLimit lim)
            (chooseQ (dEqualsQualString uq) (dEqualsQualString fq)
              (dEqualsQualString eq2))
          :: ((appRows (extractAppId item) p1).map AppEv.emit
            ++ appPagesTrace (extractAppId item) ps 1), none⟩ := by
  simp [listApplicationAssignedUsers, ha, streamAppUsers_unbounded,
    appPageLoop_unbounded]

/-! ## Claims C2 and C3: fan-out pruning and list qualifiers -/

/-- C2 counterexample: for the concrete parent row with key "u1" and the
exact-match user_id qualifier "u2", listOktaFactors does prune (no page
fetch, no emitted row, result (nil, nil)), but its trace is exactly
[connect]: the Connect call is made before the qualifier check, so the
claim's "returns (nil, nil) before any connection ... is made for that
parent" is false on the code. -/
theorem claim2_counterexample :
    (listOktaFactors (some ⟨"u1", "login1"⟩) (some (QualValue.str "u2")) none
        ⟨Except.ok [], []⟩ (some 5)).trace = [FactorEv.connect] ∧
    (listOktaFactors (some ⟨"u1", "login1"⟩) (some (QualValue.str "u2")) none
        ⟨Except.ok [], []⟩ (some 5)).result = none := by
  constructor <;> rfl

/-- C2 amended: fan-out pruning happens after the connection is acquired
but before any primary fetch.  With an exact-match user_id qualifier v
(non-empty) and a successful Connect: a parent row whose key differs from
v makes listOktaFactors return (nil, nil) with trace [connect] (no page
fetched, no row emitted); a parent row whose key equals v reaches the
primary fetch (page 0 is requested). -/
theorem claim2_fanout_pruning (item : Option OktaUser) (v : String)
    (server : PagedResponse RawFactor) (b : Option Nat)
    (hv : v ≠ "") :
    (userIdOf item ≠ v →
      listOktaFactors item (some (QualValue.str v)) none server b
        = ⟨[FactorEv.connect], none⟩) ∧
    (userIdOf item = v →
      FactorEv.fetchPage 0 ∈
        (listOktaFactors item (some (QualValue.str v)) none server b).trace) := by
  constructor
  · intro h
    have hpr : factorQualPrunes (some (QualValue.str v)) (userIdOf item) = true := by
      simp only [factorQualPrunes, dEqualsQualString]
      rw [if_pos (bne_iff_ne.mpr hv)]
      rw [bne_iff_ne.mpr hv, bne_iff_ne.mpr (fun hh => h hh.symm)]
      rfl
    simp [listOktaFactors, hpr]
  · intro h
    have hpr : factorQualPrunes (some (QualValue.str v)) (userIdOf item) = false := by
      simp only [factorQualPrunes, dEqualsQualString]
      rw [if_pos (bne_iff_ne.mpr hv)]
      rw [h]
      simp
    have hu : (userIdOf item == "") = false := by
      rw [h]; exact beq_eq_false_iff_ne.mpr hv
    cases hfirst : server.first with
    | error e =>
      by_cases hnf : strContainsSub e.message "Not found" = true
      · simp [listOktaFactors, hpr, hu, hfirst, hnf]
      · simp [listOktaFactors, hpr, hu, hfirst, hnf]
    | ok items =>
      rcases hs : streamFactorItems (userIdOf item) (userNameOf item) items b
        with ⟨sevs, b2, st2⟩
      cases st2 with
      | true => simp [listOktaFactors, hpr, hu, hfirst, hs]
      | false =>
        rcases hr : factorPageLoop (userIdOf item) (userNameOf item) server.rest b2 1
          with ⟨revs, rres⟩
        simp [listOktaFactors, hpr, hu, hfirst, hs, hr]

/-- C2 witness: the amended claim at the parent key "u1" with qualifier
value "u2" (pruned: trace is [connect]) and at the key "u2" (the fetch is
issued). -/
theorem claim2_fanout_pruning_witness :
    ((some "u1" : Option String) ≠ none) ∧
    (listOktaFactors (some ⟨"u1", "l"⟩) (some (QualValue.str "u2")) none
        ⟨Except.ok [], []⟩ none = ⟨[FactorEv.connect], none⟩) ∧
    (FactorEv.fetchPage 0 ∈
      (listOktaFactors (some ⟨"u2", "l"⟩) (some (QualValue.str "u2")) none
        ⟨Except.ok [], []⟩ none).trace) :=
  ⟨by decide,
   (claim2_fanout_pruning (some ⟨"u1", "l"⟩) "u2" ⟨Except.ok [], []⟩ none
      (by decide)).1 (by decide),
   (claim2_fanout_pruning (some ⟨"u2", "l"⟩) "u2" ⟨Except.ok [], []⟩ none
      (by decide)).2 (by decide)⟩

/-- C3: a list-valued ("IN") user_id qualifier is never pushed to the
server and is enforced client-side: when the parent key is a member of the
list, the outcome is identical to running with no qualifier at all (so the
request the server sees carries nothing of the qualifier and the fetch
proceeds); when the key is not a member and the list is non-empty, the
function prunes before any fetch: trace [connect], no rows, (nil, nil). -/
theorem claim3_in_qual_client_side (item : Option OktaUser) (l : List String)
    (ce : Option ApiError) (server : PagedResponse RawFactor) (b : Option Nat) :
    (userIdOf item ∈ l →
      listOktaFactors item (some (QualValue.list l)) ce server b
        = listOktaFactors item none ce server b) ∧
    (l ≠ [] → userIdOf item ∉ l → ce = none →
      listOktaFactors item (some (QualValue.list l)) ce server b
        = ⟨[FactorEv.connect], none⟩) := by
  constructor
  · intro hmem
    have hpr : factorQualPrunes (some (QualValue.list l)) (userIdOf item) = false := by
      simp only [factorQualPrunes, dEqualsQualString, dGetListValues]
      rw [if_neg (by simp)]
      have hcon : l.contains (userIdOf item) = true := List.elem_eq_true_of_mem hmem
      rw [hcon]
      simp
    cases ce with
    | some e => rfl
    | none =>
      have hpr0 : factorQualPrunes none (userIdOf item) = false := rfl
      simp only [listOktaFactors, hpr, hpr0]
  · intro hne hnot hce
    subst hce
    have hpr : factorQualPrunes (some (QualValue.list l)) (userIdOf item) = true := by
      simp only [factorQualPrunes, dEqualsQualString, dGetListValues]
      rw [if_neg (by simp)]
      rw [if_pos (by cases l with | nil => exact (hne rfl).elim | cons x xs => simp)]
      cases hcon : l.contains (userIdOf item) with
      | true => exact (hnot (List.mem_of_elem_eq_true hcon)).elim
      | false => rfl
    simp [listOktaFactors, hpr]

/-- C3 witness: the member key "u2" of the list qualifier ["u1", "u2"]
fetches exactly as without the qualifier; the non-member key "u3" prunes. -/
theorem claim3_in_qual_client_side_witness :
    (listOktaFactors (some ⟨"u2", "l"⟩) (some (QualValue.list ["u1", "u2"])) none
        ⟨Except.ok [], []⟩ none
      = listOktaFactors (some ⟨"u2", "l"⟩) none none ⟨Except.ok [], []⟩ none) ∧
    (listOktaFactors (some ⟨"u3", "l"⟩) (some (QualValue.list ["u1", "u2"])) none
        ⟨Except.ok [], []⟩ none = ⟨[FactorEv.connect], none⟩) :=
  ⟨(claim3_in_qual_client_side (some ⟨"u2", "l"⟩) ["u1", "u2"] none
      ⟨Except.ok [], []⟩ none).1 (by decide),
   (claim3_in_qual_client_side (some ⟨"u3", "l"⟩) ["u1", "u2"] none
      ⟨Except.ok [], []⟩ none).2 (by decide) (by decide) rfl⟩

/-! ## Claims C4 and C10: qualifier pushdown and page-size clamp -/

theorem appEmits_map_emit (rows : List AppUserInfo) :
    appEmits (rows.map AppEv.emit) = rows := by
  induction rows with
  | nil => rfl
  | cons r rs ih => simp only [List.map_cons, appEmits, List.filterMap_cons] at *; rw [ih]

theorem appEmits_append (a b : List AppEv) :
    appEmits (a ++ b) = appEmits a ++ appEmits b := by
  simp [appEmits, List.filterMap_append]

theorem appEmits_pagesTrace (appId : String) :
    ∀ (pages : List (List AppUser)) (i : Nat),
      appEmits (appPagesTrace appId pages i) = appRows appId pages.flatten := by
  intro pages
  induction pages with
  | nil => intro i; simp [appPagesTrace, appRows, appEmits]
  | cons p ps ih =>
    intro i
    simp only [appPagesTrace, List.flatten]
    rw [show AppEv.fetchNext i :: (appRows appId p).map AppEv.emit
        ++ appPagesTrace appId ps (i + 1)
      = (AppEv.fetchNext i :: (appRows appId p).map AppEv.emit)
        ++ appPagesTrace appId ps (i + 1) from rfl]
    rw [appEmits_append, ih]
    simp only [appEmits, List.filterMap_cons]
    rw [show (List.filterMap (fun e => match e with
        | AppEv.emit r => some r | _ => none) ((appRows appId p).map AppEv.emit))
      = appEmits ((appRows appId p).map AppEv.emit) from rfl]
    rw [appEmits_map_emit]
    simp [appRows]

/-- C4 counterexample: the user_name qualifier "alice" is pushed down as
the server query parameter q, the server (whose q-filtering is fuzzy, a
strict superset) returns the user "bob", and listApplicationAssignedUsers
streams bob's row without any client-side re-check: an emitted row does
not satisfy the pushed-down qualifier, so the claim is false on the code. -/
theorem claim4_counterexample :
    (listApplicationAssignedUsers
        (AppParentItem.listAppsInner (some (AppInstance.saml (some "app1"))))
        (some (QualValue.str "alice")) none none none none
        ⟨Except.ok [⟨"u9", "bob", "Bob", "bob@example.com"⟩], []⟩ none).trace
      = [AppEv.connect, AppEv.fetchFirst "app1" 500 "alice",
         AppEv.emit ⟨"app1", ⟨"u9", "bob", "Bob", "bob@example.com"⟩⟩] ∧
    (AppUserInfo.mk "app1" ⟨"u9", "bob", "Bob", "bob@example.com"⟩).user.userName
      ≠ "alice" := by
  exact ⟨rfl, by decide⟩

/-- C4 amended: at most one qualifier (user_name, else first_name, else
email) is pushed down as the server-side query parameter q, and the list
function performs no client-side re-check: every row of the server-filtered
response is streamed as-is (the emitted rows are exactly the server's rows
with the appId attached, whatever the qualifiers), so honoring pushed-down
qualifiers on emitted rows is left to the host query engine. -/
theorem claim4_no_client_recheck (item : AppParentItem)
    (uq fq eq2 : Option QualValue) (lim : Option Int)
    (p1 : List AppUser) (ps : List (List AppUser))
    (ha : extractAppId item ≠ "") :
    (∃ rest, (listApplicationAssignedUsers item uq fq eq2 none lim
        ⟨Except.ok p1, ps.map Except.ok⟩ none).trace
      = AppEv.connect :: AppEv.fetchFirst (extractAppId item) (appMaxLimit lim)
          (chooseQ (dEqualsQualString uq) (dEqualsQualString fq)
            (dEqualsQualString eq2)) :: rest) ∧
    appEmits (listApplicationAssignedUsers item uq fq eq2 none lim
        ⟨Except.ok p1, ps.map Except.ok⟩ none).trace
      = appRows (extractAppId item) (p1 ++ ps.flatten) := by
  have hred := listApplicationAssignedUsers_unbounded item uq fq eq2 lim p1 ps ha
  constructor
  · exact ⟨_, by rw [hred]⟩
  · rw [hred]
    simp only [appEmits, List.filterMap_cons]
    rw [show (List.filterMap (fun e => match e with
        | AppEv.emit r => some r | _ => none)
          ((appRows (extractAppId item) p1).map AppEv.emit
            ++ appPagesTrace (extractAppId item) ps 1))
      = appEmits ((appRows (extractAppId item) p1).map AppEv.emit
            ++ appPagesTrace (extractAppId item) ps 1) from rfl]
    rw [appEmits_append, appEmits_map_emit, appEmits_pagesTrace]
    simp [appRows]

/-- C4 witness: with the user_name qualifier "alice" and two server rows
for users "alice" and "bob", both rows are streamed unchanged. -/
theorem claim4_no_client_recheck_witness :
    (∃ rest, (listApplicationAssignedUsers
        (AppParentItem.listAppsInner (some (AppInstance.saml (some "app1"))))
        (some (QualValue.str "alice")) none none none none
        ⟨Except.ok [⟨"u1", "alice", "A", "a@x"⟩, ⟨"u9", "bob", "B", "b@x"⟩], []⟩
        none).trace
      = AppEv.connect :: AppEv.fetchFirst "app1" 500 "alice" :: rest) ∧
    appEmits (listApplicationAssignedUsers
        (AppParentItem.listAppsInner (some (AppInstance.saml (some "app1"))))
        (some (QualValue.str "alice")) none none none none
        ⟨Except.ok [⟨"u1", "alice", "A", "a@x"⟩, ⟨"u9", "bob", "B", "b@x"⟩], []⟩
        none).trace
      = appRows "app1" [⟨"u1", "alice", "A", "a@x"⟩, ⟨"u9", "bob", "B", "b@x"⟩] := by
  have h := claim4_no_client_recheck
    (AppParentItem.listAppsInner (some (AppInstance.saml (some "app1"))))
    (some (QualValue.str "alice")) none none none
    [⟨"u1", "alice", "A", "a@x"⟩, ⟨"u9", "bob", "B", "b@x"⟩] [] (by decide)
  simpa using h

/-- C10: the per-page limit sent to the server by
listApplicationAssignedUsers is min(500, L) when the caller supplies a row
limit L and exactly 500 when it does not; in particular it never exceeds
500. -/
theorem claim10_page_size_clamp (item : AppParentItem)
    (uq fq eq2 : Option QualValue) (lim : Option Int)
    (server : PagedResponse AppUser) (b : Option Nat)
    (ha : extractAppId item ≠ "") :
    (∃ rest, (listApplicationAssignedUsers item uq fq eq2 none lim server b).trace
      = AppEv.connect :: AppEv.fetchFirst (extractAppId item) (appMaxLimit lim)
          (chooseQ (dEqualsQualString uq) (dEqualsQualString fq)
            (dEqualsQualString eq2)) :: rest) ∧
    appMaxLimit lim = (match lim with
      | some l2 => min l2 500
      | none => 500) ∧
    appMaxLimit lim ≤ 500 := by
  have ha2 : (extractAppId item == "") = false := beq_eq_false_iff_ne.mpr ha
  refine ⟨?_, ?_, ?_⟩
  · cases hfirst : server.first with
    | error e =>
      exact ⟨[], by simp [listApplicationAssignedUsers, ha2, hfirst]⟩
    | ok us =>
      rcases hs : streamAppUsers (extractAppId item) us b with ⟨sevs, b2, st2⟩
      cases st2 with
      | true =>
        exact ⟨sevs, by simp [listApplicationAssignedUsers, ha2, hfirst, hs]⟩
      | false =>
        rcases hr : appPageLoop (extractAppId item) server.rest b2 1 with ⟨revs, rres⟩
        exact ⟨sevs ++ revs, by simp [listApplicationAssignedUsers, ha2, hfirst, hs, hr]⟩
  · cases lim with
    | none => rfl
    | some l2 =>
      simp only [appMaxLimit, min_def]
      split_ifs <;> omega
  · cases lim with
    | none => simp [appMaxLimit]
    | some l2 =>
      simp only [appMaxLimit]
      split_ifs <;> omega

/-- C10 witness: with the caller limit 20 the request carries 20 = min(500,
20); hypotheses discharged at a concrete application parent. -/
theorem claim10_page_size_clamp_witness :
    (∃ rest, (listApplicationAssignedUsers
        (AppParentItem.listAppsInner (some (AppInstance.saml (some "app1"))))
        none none none none (some 20) ⟨Except.ok [], []⟩ (some 20)).trace
      = AppEv.connect :: AppEv.fetchFirst "app1" (appMaxLimit (some 20))
          (chooseQ (dEqualsQualString none) (dEqualsQualString none)
            (dEqualsQualString none)) :: rest) ∧
    appMaxLimit (some 20) = (match (some 20 : Option Int) with
      | some l2 => min l2 500
      | none => 500) ∧
    appMaxLimit (some 20) ≤ 500 :=
  claim10_page_size_clamp
    (AppParentItem.listAppsInner (some (AppInstance.saml (some "app1"))))
    none none none (some 20) ⟨Except.ok [], []⟩ (some 20) (by decide)

/-! ## Claim C9: pagination cardinality and order -/

theorem factor_countP_map_emit (rows : List UserFactorInfo) :
    (rows.map FactorEv.emit).countP FactorEv.isEmit = rows.length := by
  induction rows with
  | nil => rfl
  | cons r rs ih => simp [List.countP_cons, ih]

theorem app_countP_map_emit (rows : List AppUserInfo) :
    (rows.map AppEv.emit).countP AppEv.isEmit = rows.length := by
  induction rows with
  | nil => rfl
  | cons r rs ih => simp [List.countP_cons, ih]

theorem factorRows_length_of_some (uid uname : String) :
    ∀ (p : List RawFactor), (∀ r ∈ p, r.isSome = true) →
      (factorRows uid uname p).length = p.length := by
  intro p
  induction p with
  | nil => intro _; rfl
  | cons r rs ih =>
    intro h
    cases r with
    | none => exact absurd (h none (List.mem_cons_self none rs)) (by simp)
    | some inst =>
      have hstep : factorRows uid uname (some inst :: rs)
          = (⟨uid, uname, getFactorDetails inst⟩ : UserFactorInfo)
            :: factorRows uid uname rs := by
        simp [factorRows, List.filterMap_cons]
      rw [hstep, List.length_cons, List.length_cons,
        ih fun a ha => h a (List.mem_cons_of_mem _ ha)]

/-- C9: with no row limit, three error-free pages of ten items each (every
item carrying a recognized variant) make the list operations emit exactly
30 rows, request the pages in cursor order with a continuation requested
only after the previous page's rows are streamed, and stream rows in page
order: the trace is exactly the connect event, then page 0's request
followed by its rows, then page 1's, then page 2's.  Holds for
listOktaFactors and listApplicationAssignedUsers. -/
theorem claim9_pagination_order (u : OktaUser)
    (p1 p2 p3 : List RawFactor)
    (aitem : AppParentItem) (q1 q2 q3 : List AppUser)
    (hu : u.id ≠ "")
    (ha : extractAppId aitem ≠ "")
    (hlen : p1.length = 10 ∧ p2.length = 10 ∧ p3.length = 10)
    (hsome : ∀ r ∈ p1 ++ p2 ++ p3, ∃ inst, r = some inst ∧
      (factorPayload inst).isSome = true)
    (hqlen : q1.length = 10 ∧ q2.length = 10 ∧ q3.length = 10) :
    ((listOktaFactors (some u) none none
        ⟨Except.ok p1, [Except.ok p2, Except.ok p3]⟩ none).trace
      = FactorEv.connect :: factorPagesTrace u.id u.login [p1, p2, p3] 0 ∧
      (listOktaFactors (some u) none none
        ⟨Except.ok p1, [Except.ok p2, Except.ok p3]⟩ none).trace.countP
          FactorEv.isEmit = 30) ∧
    ((listApplicationAssignedUsers aitem none none none none none
        ⟨Except.ok q1, [Except.ok q2, Except.ok q3]⟩ none).trace
      = AppEv.connect :: AppEv.fetchFirst (extractAppId aitem) 500 ""
          :: ((appRows (extractAppId aitem) q1).map AppEv.emit
            ++ appPagesTrace (extractAppId aitem) [q2, q3] 1) ∧
      (listApplicationAssignedUsers aitem none none none none none
        ⟨Except.ok q1, [Except.ok q2, Except.ok q3]⟩ none).trace.countP
          AppEv.isEmit = 30) := by
  have hsome1 : ∀ r ∈ p1, r.isSome = true := by
    intro r hr
    obtain ⟨inst, hre, _⟩ := hsome r
      (List.mem_append_left p3 (List.mem_append_left p2 hr))
    rw [hre]; rfl
  have hsome2 : ∀ r ∈ p2, r.isSome = true := by
    intro r hr
    obtain ⟨inst, hre, _⟩ := hsome r
      (List.mem_append_left p3 (List.mem_append_right p1 hr))
    rw [hre]; rfl
  have hsome3 : ∀ r ∈ p3, r.isSome = true := by
    intro r hr
    obtain ⟨inst, hre, _⟩ := hsome r (List.mem_append_right (p1 ++ p2) hr)
    rw [hre]; rfl
  have hfact := listOktaFactors_unbounded (some u) none p1 [p2, p3] rfl hu
  have happ := listApplicationAssignedUsers_unbounded aitem none none none none
    q1 [q2, q3] ha
  constructor
  · constructor
    · rw [show (⟨Except.ok p1, [Except.ok p2, Except.ok p3]⟩ :
          PagedResponse RawFactor)
        = ⟨Except.ok p1, [p2, p3].map Except.ok⟩ from rfl, hfact]
      rfl
    · rw [show (⟨Except.ok p1, [Except.ok p2, Except.ok p3]⟩ :
          PagedResponse RawFactor)
        = ⟨Except.ok p1, [p2, p3].map Except.ok⟩ from rfl, hfact]
      simp only [factorPagesTrace, List.countP_cons, List.countP_append,
        factor_countP_map_emit, isEmit_connect, isEmit_fetchPage,
        userIdOf, userNameOf]
      rw [factorRows_length_of_some u.id u.login p1 hsome1,
        factorRows_length_of_some u.id u.login p2 hsome2,
        factorRows_length_of_some u.id u.login p3 hsome3]
      simp only [List.countP_nil]
      simp
      omega
  · constructor
    · rw [show (⟨Except.ok q1, [Except.ok q2, Except.ok q3]⟩ :
          PagedResponse AppUser)
        = ⟨Except.ok q1, [q2, q3].map Except.ok⟩ from rfl, happ]
      rfl
    · rw [show (⟨Except.ok q1, [Except.ok q2, Except.ok q3]⟩ :
          PagedResponse AppUser)
        = ⟨Except.ok q1, [q2, q3].map Except.ok⟩ from rfl, happ]
      simp only [appPagesTrace, List.countP_cons, List.countP_append,
        app_countP_map_emit, appIsEmit_connect, appIsEmit_fetchFirst,
        appIsEmit_fetchNext]
      simp only [appRows, List.length_map, List.countP_nil]
      simp
      omega

/-- A concrete page of ten recognized factor items, for the C9 witness. -/
def w9FactorPage : List RawFactor :=
  List.replicate 10 (some (FactorInstance.sms ⟨"f1", "sms"⟩ none))

/-- A concrete page of ten application users, for the C9 witness. -/
def w9AppPage : List AppUser := List.replicate 10 ⟨"id1", "bob", "Bob", "b@x"⟩

/-- C9 witness: the pagination-order theorem at three concrete pages of ten
recognized items each, for both list functions. -/
theorem claim9_pagination_order_witness :
    ((listOktaFactors (some ⟨"u1", "login1"⟩) none none
        ⟨Except.ok w9FactorPage, [Except.ok w9FactorPage, Except.ok w9FactorPage]⟩
        none).trace
      = FactorEv.connect :: factorPagesTrace "u1" "login1"
          [w9FactorPage, w9FactorPage, w9FactorPage] 0 ∧
      (listOktaFactors (some ⟨"u1", "login1"⟩) none none
        ⟨Except.ok w9FactorPage, [Except.ok w9FactorPage, Except.ok w9FactorPage]⟩
        none).trace.countP FactorEv.isEmit = 30) ∧
    ((listApplicationAssignedUsers
        (AppParentItem.listAppsInner (some (AppInstance.saml (some "app1"))))
        none none none none none
        ⟨Except.ok w9AppPage, [Except.ok w9AppPage, Except.ok w9AppPage]⟩
        none).trace
      = AppEv.connect :: AppEv.fetchFirst "app1" 500 ""
          :: ((appRows "app1" w9AppPage).map AppEv.emit
            ++ appPagesTrace "app1" [w9AppPage, w9AppPage] 1) ∧
      (listApplicationAssignedUsers
        (AppParentItem.listAppsInner (some (AppInstance.saml (some "app1"))))
        none none none none none
        ⟨Except.ok w9AppPage, [Except.ok w9AppPage, Except.ok w9AppPage]⟩
        none).trace.countP AppEv.isEmit = 30) :=
  claim9_pagination_order ⟨"u1", "login1"⟩ w9FactorPage w9FactorPage w9FactorPage
    (AppParentItem.listAppsInner (some (AppInstance.saml (some "app1"))))
    w9AppPage w9AppPage w9AppPage
    (by decide) (by decide)
    ⟨by simp [w9FactorPage], by simp [w9FactorPage], by simp [w9FactorPage]⟩
    (by
      intro r hr
      simp [w9FactorPage, List.mem_append, List.mem_replicate] at hr
      subst hr
      exact ⟨_, rfl, rfl⟩)
    ⟨by simp [w9AppPage], by simp [w9AppPage], by simp [w9AppPage]⟩

/-! ## Claim C5: not-found at single-item Get -/

/-- C5: at every single-item Get operation a remote failure whose error
message carries the "not found" condition (contains "Not found") yields no
row and no error: for the GetUser call of getOktaFactor (handled inline),
for its GetFactor call (handled by the table's ShouldIgnoreError
classifier), and for getApplicationAssignedUser's GetApplicationUser call
(likewise). -/
theorem claim5_get_not_found (uq fq : String)
    (gf : Except ApiError (Option OktaFactor)) (user : OktaUser)
    (aq uq2 : String) (e1 e2 e3 : ApiError)
    (h1 : strContainsSub e1.message "Not found" = true)
    (h2 : strContainsSub e2.message "Not found" = true)
    (h3 : strContainsSub e3.message "Not found" = true) :
    getOktaFactor uq fq none (Except.error e1) gf = Except.ok none ∧
    getOktaFactor uq fq none (Except.ok user) (Except.error e2) = Except.ok none ∧
    getApplicationAssignedUser aq uq2 none (Except.error e3) = Except.ok none := by
  refine ⟨?_, ?_, ?_⟩
  · by_cases hempty : (uq == "" || fq == "") = true
    · simp [getOktaFactor, getOktaFactorHydrate, applyShouldIgnoreError, hempty]
    · simp [getOktaFactor, getOktaFactorHydrate, applyShouldIgnoreError, hempty, h1]
  · by_cases hempty : (uq == "" || fq == "") = true
    · simp [getOktaFactor, getOktaFactorHydrate, applyShouldIgnoreError, hempty]
    · simp [getOktaFactor, getOktaFactorHydrate, applyShouldIgnoreError, hempty,
        isNotFoundError, h2]
  · by_cases hempty : (aq == "" || uq2 == "") = true
    · simp [getApplicationAssignedUser, getApplicationAssignedUserHydrate,
        applyShouldIgnoreError, hempty]
    · simp [getApplicationAssignedUser, getApplicationAssignedUserHydrate,
        applyShouldIgnoreError, hempty, isNotFoundError, h3]

/-- C5 witness: the theorem at concrete quals and the error message
"Not found: Resource not found (E0000007)". -/
theorem claim5_get_not_found_witness :
    getOktaFactor "u1" "f1" none
        (Except.error ⟨"Not found: Resource not found (E0000007)"⟩)
        (Except.ok none) = Except.ok none ∧
    getOktaFactor "u1" "f1" none (Except.ok ⟨"u1", "login1"⟩)
        (Except.error ⟨"Not found: Resource not found (E0000007)"⟩)
      = Except.ok none ∧
    getApplicationAssignedUser "app1" "u1" none
        (Except.error ⟨"Not found: Resource not found (E0000007)"⟩)
      = Except.ok none :=
  claim5_get_not_found "u1" "f1" (Except.ok none) ⟨"u1", "login1"⟩ "app1" "u1"
    ⟨"Not found: Resource not found (E0000007)"⟩
    ⟨"Not found: Resource not found (E0000007)"⟩
    ⟨"Not found: Resource not found (E0000007)"⟩
    (by decide) (by decide) (by decide)

/-! ## Claim C6: page errors -/

/-- C6 counterexample: a continuation page of listOktaFactors fails with
the message "Not found" — the very condition the function's first-page
handling classifies ignorable — yet the function returns the error instead
of terminating the sequence as empty: the claim's "ignorable-termination
behaviour applies to continuation-page errors as well" is false on the
code. -/
theorem claim6_counterexample :
    (listOktaFactors (some ⟨"u1", "login1"⟩) none none
        ⟨Except.ok [], [Except.error ⟨"Not found"⟩]⟩ none).result
      = some ⟨"Not found"⟩ ∧
    strContainsSub (ApiError.mk "Not found").message "Not found" = true := by
  exact ⟨rfl, by decide⟩

/-- C6 amended: a transport- or server-side page error fails atomically
(the failing page's request is the last trace event, no item of it is
emitted) and propagates to the caller, with one exception: a FIRST-page
error of listOktaFactors whose message contains "Not found" terminates the
sequence as empty (nil, nil).  Continuation-page errors of listOktaFactors
and all page errors of listApplicationAssignedUsers propagate even when
they carry the not-found condition. -/
theorem claim6_page_error_atomic (u : OktaUser) (e : ApiError)
    (rest : List (Except ApiError (List RawFactor))) (b : Option Nat)
    (uid uname : String) (more : List (Except ApiError (List RawFactor)))
    (i : Nat) (b2 : Option Nat)
    (aitem : AppParentItem) (uqs fqs eqs : Option QualValue) (lim : Option Int)
    (arest : List (Except ApiError (List AppUser))) (b3 : Option Nat)
    (appId : String) (amore : List (Except ApiError (List AppUser))) (j : Nat)
    (b4 : Option Nat)
    (hu : u.id ≠ "") (ha : extractAppId aitem ≠ "") :
    (listOktaFactors (some u) none none ⟨Except.error e, rest⟩ b
      = ⟨[FactorEv.connect, FactorEv.fetchPage 0],
          if strContainsSub e.message "Not found" then none else some e⟩) ∧
    (factorPageLoop uid uname (Except.error e :: more) b2 i
      = ([FactorEv.fetchPage i], some e)) ∧
    (listApplicationAssignedUsers aitem uqs fqs eqs none lim
        ⟨Except.error e, arest⟩ b3
      = ⟨[AppEv.connect, AppEv.fetchFirst (extractAppId aitem) (appMaxLimit lim)
            (chooseQ (dEqualsQualString uqs) (dEqualsQualString fqs)
              (dEqualsQualString eqs))], some e⟩) ∧
    (appPageLoop appId (Except.error e :: amore) b4 j
      = ([AppEv.fetchNext j], some e)) := by
  refine ⟨?_, rfl, ?_, rfl⟩
  · have hu2 : (u.id == "") = false := beq_eq_false_iff_ne.mpr hu
    by_cases hnf : strContainsSub e.message "Not found" = true
    · simp [listOktaFactors, factorQualPrunes, userIdOf, userNameOf, hu2, hnf]
    · simp [listOktaFactors, factorQualPrunes, userIdOf, userNameOf, hu2, hnf]
  · have ha2 : (extractAppId aitem == "") = false := beq_eq_false_iff_ne.mpr ha
    simp [listApplicationAssignedUsers, ha2]

/-- C6 witness: the amended behaviour at the non-ignorable error
"internal server error" and concrete parents. -/
theorem claim6_page_error_atomic_witness :
    (listOktaFactors (some ⟨"u1", "l"⟩) none none
        ⟨Except.error ⟨"internal server error"⟩, []⟩ none
      = ⟨[FactorEv.connect, FactorEv.fetchPage 0],
          if strContainsSub (ApiError.mk "internal server error").message "Not found"
          then none else some ⟨"internal server error"⟩⟩) ∧
    (factorPageLoop "u1" "l" (Except.error ⟨"internal server error"⟩ :: []) none 1
      = ([FactorEv.fetchPage 1], some ⟨"internal server error"⟩)) ∧
    (listApplicationAssignedUsers
        (AppParentItem.listAppsInner (some (AppInstance.saml (some "app1"))))
        none none none none none
        ⟨Except.error ⟨"internal server error"⟩, []⟩ none
      = ⟨[AppEv.connect, AppEv.fetchFirst "app1" (appMaxLimit none)
            (chooseQ (dEqualsQualString none) (dEqualsQualString none)
              (dEqualsQualString none))], some ⟨"internal server error"⟩⟩) ∧
    (appPageLoop "app1" (Except.error ⟨"internal server error"⟩ :: []) none 1
      = ([AppEv.fetchNext 1], some ⟨"internal server error"⟩)) :=
  claim6_page_error_atomic ⟨"u1", "l"⟩ ⟨"internal server error"⟩ [] none
    "u1" "l" [] 1 none
    (AppParentItem.listAppsInner (some (AppInstance.saml (some "app1"))))
    none none none none [] none "app1" [] 1 none
    (by decide) (by decide)

/-! ## Claim C7: unknown-variant resolution -/

theorem getFactorDetails_of_payload :
    ∀ (inst : FactorInstance) (f : UserFactor) (p : Option String),
      factorPayload inst = some (f, p) → getFactorDetails inst = ⟨f, p⟩ := by
  intro inst f p h
  cases inst <;> simp_all [factorPayload, getFactorDetails]

/-- C7 counterexample: for a raw item whose actual instance is of an
unrecognized type, getFactorDetails returns the empty sentinel without an
error — but listOktaFactors streams that sentinel as a row (its nil check
is only on the instance being nil, not on recognition): the claim's "the
sentinel is never streamed as a row" is false on the code. -/
theorem claim7_counterexample :
    (listOktaFactors (some ⟨"u1", "login1"⟩) none none
        ⟨Except.ok [some FactorInstance.unknown], []⟩ none).trace
      = [FactorEv.connect, FactorEv.fetchPage 0,
         FactorEv.emit ⟨"u1", "login1", ⟨⟨"", ""⟩, none⟩⟩] ∧
    getFactorDetails FactorInstance.unknown = ⟨⟨"", ""⟩, none⟩ ∧
    factorPayload FactorInstance.unknown = none := by
  exact ⟨rfl, rfl, rfl⟩

/-- C7 amended: union resolution of an unrecognized variant returns the
sentinel without error (the empty OktaFactor for factors, nil for
policies); a recognized variant resolves to its own payload, preserving
the embedded identity fields.  The policy list never streams a nil
conversion (the page loop adds no emit event for it), but listOktaFactors
streams whatever getFactorDetails returns — the sentinel included — for
every item with a non-nil instance. -/
theorem claim7_unknown_variant (inst inst2 : FactorInstance) (f : UserFactor)
    (p : Option String) (u : OktaUser) (upol : Option PolicyInstance)
    (more : List (Except ApiError (Option PolicyInstance))) (b : Option Nat)
    (i : Nat)
    (hu : u.id ≠ "")
    (hrec : factorPayload inst = some (f, p))
    (hnone : convertPolicyRespToStruct (some upol) = none) :
    getFactorDetails FactorInstance.unknown = ⟨⟨"", ""⟩, none⟩ ∧
    getFactorDetails inst = ⟨f, p⟩ ∧
    convertPolicyRespToStruct (some (some PolicyInstance.unknown)) = none ∧
    (policyPageLoop (Except.ok upol :: more) b i
      = (PolicyEv.fetchNext i :: (policyPageLoop more b (i + 1)).1,
         (policyPageLoop more b (i + 1)).2)) ∧
    (listOktaFactors (some u) none none ⟨Except.ok [some inst2], []⟩ none).trace
      = [FactorEv.connect, FactorEv.fetchPage 0,
         FactorEv.emit ⟨u.id, u.login, getFactorDetails inst2⟩] := by
  refine ⟨rfl, getFactorDetails_of_payload inst f p hrec, rfl, ?_, ?_⟩
  · simp [policyPageLoop, hnone]
  · have hu2 : (u.id == "") = false := beq_eq_false_iff_ne.mpr hu
    simp [listOktaFactors, factorQualPrunes, userIdOf, userNameOf, hu2,
      streamFactorItems, streamItem, rowsRemainingZero, factorPageLoop]

/-- C7 witness: the recognized sms variant resolves to its payload, the
unknown variant to the sentinel, the policy page loop skips a nil
conversion, and listOktaFactors streams the sentinel row for an unknown
instance. -/
theorem claim7_unknown_variant_witness :
    getFactorDetails FactorInstance.unknown = ⟨⟨"", ""⟩, none⟩ ∧
    getFactorDetails (FactorInstance.sms ⟨"f1", "sms"⟩ none) = ⟨⟨"f1", "sms"⟩, none⟩ ∧
    convertPolicyRespToStruct (some (some PolicyInstance.unknown)) = none ∧
    (policyPageLoop (Except.ok (some PolicyInstance.unknown) :: []) none 1
      = (PolicyEv.fetchNext 1 :: (policyPageLoop [] none 2).1,
         (policyPageLoop [] none 2).2)) ∧
    (listOktaFactors (some ⟨"u1", "login1"⟩) none none
        ⟨Except.ok [some FactorInstance.unknown], []⟩ none).trace
      = [FactorEv.connect, FactorEv.fetchPage 0,
         FactorEv.emit ⟨"u1", "login1",
           getFactorDetails FactorInstance.unknown⟩] :=
  claim7_unknown_variant (FactorInstance.sms ⟨"f1", "sms"⟩ none)
    FactorInstance.unknown ⟨"f1", "sms"⟩ none ⟨"u1", "login1"⟩
    (some PolicyInstance.unknown) [] none 1
    (by decide) rfl rfl

/-! ## Claim C8: enrichment error classification -/

/-- C8 counterexample: getOktaPolicyRules at a policy whose rules fetch
fails with "Not found: Resource not found" — a condition both the table's
isNotFoundError list and getOktaPolicyAssociatedResources classify
ignorable — propagates the error (aborting the query) instead of yielding
an empty value: the claim is false on the code for getOktaPolicyRules. -/
theorem claim8_counterexample :
    getOktaPolicyRules (some (PolicyHydrateItem.policyStructure
        ⟨none, none, none, "", "p1", none, "Policy1", 0, false, "", "PASSWORD"⟩))
        none ⟨Except.error ⟨"Not found: Resource not found"⟩, []⟩
        (fun r => Except.ok (r.getD ""))
      = Except.error ⟨"Not found: Resource not found"⟩ ∧
    resourcesIgnorable ⟨"Not found: Resource not found"⟩ = true ∧
    isNotFoundError ["Not found"] ⟨"Not found: Resource not found"⟩ = true := by
  exact ⟨rfl, by decide, by decide⟩

/-- C8 amended: the ignorable classification at enrichment fetches exists
only in getOktaPolicyAssociatedResources and only at its first page: a
first ListPolicyMappings error whose message is a not-found / 404
condition yields an absent value (nil, nil) without failing the row, any
other error propagates; getOktaPolicyRules propagates every fetch error —
the not-found condition included — aborting the query. -/
theorem claim8_enrichment_errors (it : PolicyHydrateItem) (e : ApiError)
    (mrest : List (Except ApiError (List String)))
    (rrest : List (Except ApiError (List (Option String))))
    (s2m : Option String → Except ApiError String)
    (h1 : policyIdOfResources it ≠ "") (h2 : policyIdOfRules it ≠ "") :
    (resourcesIgnorable e = true →
      getOktaPolicyAssociatedResources (some it) none ⟨Except.error e, mrest⟩
        = Except.ok none) ∧
    (resourcesIgnorable e = false →
      getOktaPolicyAssociatedResources (some it) none ⟨Except.error e, mrest⟩
        = Except.error e) ∧
    getOktaPolicyRules (some it) none ⟨Except.error e, rrest⟩ s2m
      = Except.error e := by
  have h1b : (policyIdOfResources it == "") = false := beq_eq_false_iff_ne.mpr h1
  have h2b : (policyIdOfRules it == "") = false := beq_eq_false_iff_ne.mpr h2
  refine ⟨?_, ?_, ?_⟩
  · intro hig
    simp [getOktaPolicyAssociatedResources, h1b, hig]
  · intro hig
    simp [getOktaPolicyAssociatedResources, h1b, hig]
  · simp [getOktaPolicyRules, h2b]

/-- C8 witness: the amended behaviour at the policy "p1" and the ignorable
error "Not found". -/
theorem claim8_enrichment_errors_witness :
    (resourcesIgnorable ⟨"Not found"⟩ = true →
      getOktaPolicyAssociatedResources (some (PolicyHydrateItem.policyStructure
          ⟨none, none, none, "", "p1", none, "Policy1", 0, false, "", "PASSWORD"⟩))
          none ⟨Except.error ⟨"Not found"⟩, []⟩
        = Except.ok none) ∧
    (resourcesIgnorable ⟨"Not found"⟩ = false →
      getOktaPolicyAssociatedResources (some (PolicyHydrateItem.policyStructure
          ⟨none, none, none, "", "p1", none, "Policy1", 0, false, "", "PASSWORD"⟩))
          none ⟨Except.error ⟨"Not found"⟩, []⟩
        = Except.error ⟨"Not found"⟩) ∧
    getOktaPolicyRules (some (PolicyHydrateItem.policyStructure
        ⟨none, none, none, "", "p1", none, "Policy1", 0, false, "", "PASSWORD"⟩))
        none ⟨Except.error ⟨"Not found"⟩, []⟩ (fun r => Except.ok (r.getD ""))
      = Except.error ⟨"Not found"⟩ :=
  claim8_enrichment_errors (PolicyHydrateItem.policyStructure
      ⟨none, none, none, "", "p1", none, "Policy1", 0, false, "", "PASSWORD"⟩)
    ⟨"Not found"⟩ [] [] (fun r => Except.ok (r.getD ""))
    (by decide) (by decide)
